import Mathlib

/-!
Shallow embedding of the graph classification, grouping and diff-resolution
engine of the inkdrop visualizer (src/tldraw-renderer/src/TLDWrapper.tsx),
together with theorems checking the specification's claims about it.

Node ids, block ids, action tags and change states are JavaScript strings and
are embedded as `String`.  The `Map<string, NodeGroup>` from the source is
embedded as an insertion-ordered association list with JavaScript `Map`
semantics (`set` on an existing key replaces the value in place, otherwise
appends).  Code that can throw a `TypeError` (indexing `undefined`) is
embedded in `Except Unit`, and the fuel-indexed recursion of
`getConnectedNodes` returns `none` when the fuel runs out.
-/

namespace Inkdrop

/-- JavaScript values appearing in a plan's `after` mapping: strings and
nested objects are the shapes the engine inspects. -/
inductive JsVal where
  | str : String → JsVal
  | obj : List (String × JsVal) → JsVal

/-- JavaScript truthiness for the values we model: the empty string is falsy,
every other string and every object is truthy. -/
def JsVal.truthy : JsVal → Bool
  | .str s => !(s == "")
  | .obj _ => true

/-- Property access `v[k]` on an object (key lookup); on a string it yields
`undefined` (`none`) for the attribute names the engine uses. -/
def jsIndex (v : JsVal) (k : String) : Option JsVal :=
  match v with
  | .obj fields => (fields.find? (fun p => p.1 == k)).map (·.2)
  | .str _ => none

/-- Truthiness of a possibly-`undefined` JavaScript value. -/
def optTruthy : Option JsVal → Bool
  | none => false
  | some v => v.truthy

/-! ## String primitives

JavaScript's `split`, `startsWith`, `join` and `trim`, implemented by
structural recursion over the string's character list so that every
definition in this file evaluates inside the kernel. -/

def splitOnCAux (c : Char) : List Char → List Char → List String
  | [], acc => [String.mk acc.reverse]
  | d :: rest, acc =>
    if d = c then String.mk acc.reverse :: splitOnCAux c rest []
    else splitOnCAux c rest (d :: acc)

/-- `s.split(c)` for a one-character separator: splits at every occurrence,
keeping empty segments, and returns `[""]` on the empty string. -/
def splitOnC (c : Char) (s : String) : List String := splitOnCAux c s.data []

/-- `s.startsWith(pre)`. -/
def startsWithS (s pre : String) : Bool := pre.data.isPrefixOf s.data

/-- `parts.join(sep)`. -/
def joinS (sep : String) : List String → String
  | [] => ""
  | s :: rest => rest.foldl (fun a b => a ++ sep ++ b) s

/-- `s.trim()`. -/
def trimS (s : String) : String :=
  String.mk (((s.data.dropWhile Char.isWhitespace).reverse.dropWhile
    Char.isWhitespace).reverse)

/-! ## Block classifier (source: `checkHclBlockType`, TLDWrapper.tsx:130-155) -/

structure BlockInfo where
  processedBlockId : String
  isData : Bool
  isVariable : Bool
  isResource : Bool
  isLocal : Bool
  isOutput : Bool
  isProvider : Bool
  isModule : Bool
  isResourceWithName : Bool
  moduleName : String
deriving DecidableEq, Repr

/-- `checkHclBlockType(blockId)`: strips a `module.<name>.` prefix, records
the module name, classifies the residual id by prefix, and for every
non-resource non-module block drops the first dot-segment. -/
def checkHclBlockType (blockId0 : String) : BlockInfo :=
  let moduleName :=
    if startsWithS blockId0 "module." then ((splitOnC '.' blockId0).get? 1).getD ""
    else ""
  let blockId :=
    if startsWithS blockId0 "module." then
      joinS "." ((splitOnC '.' blockId0).drop 2)
    else blockId0
  let isModule := (blockId == "") && !(moduleName == "")
  let isData := startsWithS blockId "data."
  let isVariable := startsWithS blockId "var."
  let isLocal := startsWithS blockId "local."
  let isOutput := startsWithS blockId "output."
  let isProvider := startsWithS blockId "provider["
  let isResource := startsWithS blockId "aws_"
  let splitBlockId := splitOnC '.' blockId
  let isResourceWithName := isResource && splitBlockId.length > 1
  let processed :=
    if !isResource && !isModule then joinS "." (splitBlockId.drop 1)
    else blockId
  { processedBlockId := processed, isData := isData, isVariable := isVariable,
    isResource := isResource, isLocal := isLocal, isOutput := isOutput,
    isProvider := isProvider, isModule := isModule,
    isResourceWithName := isResourceWithName, moduleName := moduleName }

/-! ## Resource type and name extraction
(source: `getResourceNameAndType`, TLDWrapper.tsx:157-164)

The source computes
`blockId.split(".").filter((s, i) => i > 0 && blockId.split(".")[i-1] === resourceType)[0].split(" ")[0]`.
When the filter result is empty, indexing `[0]` yields `undefined` and the
subsequent `.split(" ")` throws a `TypeError`; that abort is embedded as
`Except.error ()`. -/
def getResourceNameAndType (blockId : String) :
    Except Unit (Option String × Option String) :=
  let parts := splitOnC '.' blockId
  match parts.find? (fun s => startsWithS s "aws_") with
  | none => .ok (none, none)
  | some t =>
    let following := ((parts.zip parts.tail).filter (fun p => p.1 == t)).map (·.2)
    match following.head? with
    | none => .error ()
    | some s => .ok (some t, (splitOnC ' ' s).head?)

/-! ## Change-state folding (source: TLDWrapper.tsx:181-188 and 534-540) -/

/-- `["no-op", "read"].includes(x)`. -/
def isLow (s : String) : Bool := s == "no-op" || s == "read"

/-- `actions.join("-")`: the composite action tag of one change record. -/
def joinActions (as_ : List String) : String := joinS "-" as_

/-- One step of the fold computing a main node's general state
(TLDWrapper.tsx:185-187). -/
def mainFoldStep (g n : String) : String :=
  if n == g then n
  else if isLow n && isLow g then "read"
  else if isLow g then n
  else "update"

/-- The main-node state fold over a node's change records, started at
`"no-op"` (TLDWrapper.tsx:182-188). -/
def mainGeneralState (records : List (List String)) : String :=
  records.foldl (fun g r => mainFoldStep g (joinActions r)) "no-op"

/-- One step of the fold computing an absorbed satellite node's general state
(TLDWrapper.tsx:538-539); unlike `mainFoldStep` it lacks the branch returning
the incoming tag when the accumulator is low. -/
def satFoldStep (g n : String) : String :=
  if n == g then n
  else if isLow n && isLow g then "read"
  else "update"

/-- The satellite state fold over change records, started at `"no-op"`
(TLDWrapper.tsx:535-540). -/
def satGeneralState (records : List (List String)) : String :=
  records.foldl (fun g r => satFoldStep g (joinActions r)) "no-op"

/-- For the refinement comparison of the two folds: the satellite fold agrees
with the main fold except on non-low results other than `"update"`, which it
collapses to `"update"`. -/
def stateMirror (s : String) : String :=
  if isLow s || s == "update" then s else "update"

/-! ## Plan change records (source: TLDWrapper.tsx:176-179 and 527-533;
plan schema per the input contract: `resource_changes` entries carry an
`address`, an ordered `actions` list and an optional `after` mapping) -/

structure ChangeRecord where
  address : String
  actions : List String
  after : Option JsVal

/-- The change records owned by a resource address: exact match, or a
prefix match `address + "["` for indexed instances
(TLDWrapper.tsx:176-179, 530-532). -/
def matchingChanges (addr : String) (plan : List ChangeRecord) : List ChangeRecord :=
  plan.filter (fun r => r.address == addr || startsWithS r.address (addr ++ "["))

/-! ## Mapping table and groups (source: NodeGroup type, TLDWrapper.tsx:21-37) -/

/-- One row of the parsed `terraformResourcesCsv` mapping table; each field is
the raw comma-separated cell text, exactly as the source reads it. -/
structure CsvRow where
  mainDiagramBlocks : String
  missingResources : String
  dataSources : String
  serviceName : String
  iconPath : String
  simplifiedCategory : String
  argumentsForName : String
deriving DecidableEq, Repr

/-- One entry of a group's `nodes` array: the node model (identified by its
id) plus its resolved change records. -/
structure GroupNode where
  nodeModel : String
  resourceChanges : List ChangeRecord

structure NodeGroup where
  nodes : List GroupNode
  id : String
  mainNode : String
  connectionsOut : List String
  connectionsIn : List String
  name : Option JsVal
  type : String
  category : String
  iconPath : String
  serviceName : String
  moduleName : String
  state : String

/-- The pass's `Map<string, NodeGroup>`, as an insertion-ordered association
list with JavaScript `Map` semantics. -/
abbrev GroupMap := List (String × NodeGroup)

/-- `Map.get`. -/
def mapGet (m : GroupMap) (k : String) : Option NodeGroup :=
  (m.find? (fun p => p.1 == k)).map (·.2)

/-- `Map.set`: replace in place when the key exists, else append. -/
def mapSet (m : GroupMap) (k : String) (v : NodeGroup) : GroupMap :=
  if m.any (fun p => p.1 == k) then
    m.map (fun p => if p.1 == k then (k, v) else p)
  else m ++ [(k, v)]

/-- In-place mutation of the group stored under a key (a no-op when the key
is absent, which never happens during a pass). -/
def mapUpdate (m : GroupMap) (k : String) (f : NodeGroup → NodeGroup) : GroupMap :=
  m.map (fun p => if p.1 == k then (p.1, f p.2) else p)

/-- The `isNodePresent` check (TLDWrapper.tsx:513-517): whether any group's
nodes list already claims the node id. -/
def presentB (m : GroupMap) (nid : String) : Bool :=
  m.any (fun p => p.2.nodes.any (fun gn => gn.nodeModel == nid))

/-- How many membership entries across all groups carry the node id. -/
def memberCount (m : GroupMap) (nid : String) : Nat :=
  (m.map (fun p => (p.2.nodes.filter (fun gn => gn.nodeModel == nid)).length)).sum

/-- The keys of the map are pairwise distinct (JavaScript `Map` guarantees
this; the association-list embedding keeps it as an invariant). -/
def keysNodup (m : GroupMap) : Prop := (m.map Prod.fst).Nodup

/-! ## Display-name resolution (source: TLDWrapper.tsx:196-206)

`name = after && (after[nameAttribute] || after["name"])`, then if falsy and
the attribute path is dotted with exactly two segments,
`name = after[seg0][seg1]` — which throws when `after` is absent or lacks
`seg0`; otherwise the classified resource name is used. -/
def firstLookup (nameAttribute : String) (resourceChanges : List ChangeRecord) :
    Option JsVal :=
  match resourceChanges.head? with
  | none => some (.str "")
  | some rc =>
    match rc.after with
    | none => none
    | some a =>
      let v1 := jsIndex a nameAttribute
      if optTruthy v1 then v1 else jsIndex a "name"

def resolveName (nameAttribute : String) (resourceChanges : List ChangeRecord)
    (resourceName : String) : Except Unit (Option JsVal) :=
  let name1 : Option JsVal := firstLookup nameAttribute resourceChanges
  if optTruthy name1 then .ok name1
  else
    if resourceChanges.length > 0 && (splitOnC '.' nameAttribute).length == 2 then
      match resourceChanges.head? with
      | none => .ok (some (.str resourceName))
      | some rc =>
        match rc.after with
        | none => .error ()
        | some a =>
          match jsIndex a (((splitOnC '.' nameAttribute).get? 0).getD "") with
          | none => .error ()
          | some v => .ok (jsIndex v (((splitOnC '.' nameAttribute).get? 1).getD ""))
    else .ok (some (.str resourceName))

/-! ## Seeding (source: `addNodeToGroup`, TLDWrapper.tsx:166-232) -/

/-- The change records for a node, when a plan was supplied
(`computeTerraformPlan` / `planJsonObj` being set). -/
def planChangesFor (plan : Option (List ChangeRecord)) (cp : String) :
    List ChangeRecord :=
  match plan with
  | some p => matchingChanges cp p
  | none => []

/-- Whether the relevant column of a row (`Main Diagram Blocks` when seeding a
main block, `Missing Resources` otherwise) lists the resource type. -/
def rowMatchB (mainBlock : Bool) (resourceType : String) (row : CsvRow) : Bool :=
  (splitOnC ',' (if mainBlock then row.mainDiagramBlocks else row.missingResources)).any
    (fun s => s == resourceType)

/-- The name attribute the row supplies for the resource type: the
`Arguments For Name` entry at the type's index in `Main Diagram Blocks`,
defaulting to `"name"` when absent, empty or `"-"`
(TLDWrapper.tsx:192-194). -/
def nameAttributeOf (mainBlock : Bool) (resourceType : String) (row : CsvRow) : String :=
  let resourceIndex :=
    if mainBlock then (splitOnC ',' row.mainDiagramBlocks).findIdx? (fun s => s == resourceType)
    else none
  match resourceIndex with
  | some i =>
    match (splitOnC ',' row.argumentsForName).get? i with
    | some a => if !(a == "") && !(a == "-") then a else "name"
    | none => "name"
  | none => "name"

/-- The group value `nodeGroups.set(...)` stores for a matching row
(TLDWrapper.tsx:208-224). -/
def rowGroup (nodeId centralPart resourceType moduleName : String)
    (resourceChanges : List ChangeRecord) (generalState : String) (nm : Option JsVal)
    (row : CsvRow) : NodeGroup :=
  { nodes := [{ nodeModel := nodeId, resourceChanges := resourceChanges }],
    id := centralPart, mainNode := nodeId,
    category := row.simplifiedCategory, name := nm,
    state := if resourceChanges.length > 0 then generalState else "no-op",
    type := resourceType, serviceName := row.serviceName,
    iconPath := trimS row.iconPath, connectionsIn := [], connectionsOut := [],
    moduleName := moduleName }

/-- The body of the `jsonArray.data.forEach((row) => ...)` loop: when the
relevant column of the row lists the resource type, (re)write the map entry
under the node's address from this row's data. -/
def seedStep (nodeId centralPart resourceType resourceName moduleName : String)
    (resourceChanges : List ChangeRecord) (generalState : String) (mainBlock : Bool)
    (m : GroupMap) (row : CsvRow) : Except Unit GroupMap :=
  if rowMatchB mainBlock resourceType row then
    match resolveName (nameAttributeOf mainBlock resourceType row)
        resourceChanges resourceName with
    | .error e => .error e
    | .ok nm =>
      .ok (mapSet m centralPart
        (rowGroup nodeId centralPart resourceType moduleName resourceChanges
          generalState nm row))
  else .ok m

/-- `addNodeToGroup(node, nodeGroups, mainBlock, jsonArray, planJsonObj,
computeTerraformPlan)`: classify the node's central id part, resolve its
change records and fold its general state, then run every CSV row through
`seedStep`.  `plan = none` models `computeTerraformPlan` being false. -/
def addNodeToGroup (nodeId : String) (m : GroupMap) (mainBlock : Bool)
    (rows : List CsvRow) (plan : Option (List ChangeRecord)) : Except Unit GroupMap :=
  match (splitOnC ' ' nodeId).get? 1 with
  | none => .ok m
  | some centralPart =>
    if centralPart == "" then .ok m
    else
      let info := checkHclBlockType centralPart
      if info.isResourceWithName then
        match getResourceNameAndType info.processedBlockId with
        | .error e => .error e
        | .ok (tOpt, nOpt) =>
          match tOpt, nOpt with
          | some rt, some rn =>
            if !(rt == "") && !(rn == "") then
              rows.foldlM
                (seedStep nodeId centralPart rt rn info.moduleName
                  (planChangesFor plan centralPart)
                  (mainGeneralState ((planChangesFor plan centralPart).map
                    (fun r => r.actions)))
                  mainBlock) m
            else .ok m
          | _, _ => .ok m
      else .ok m

/-! ## Input graph shape (source: `ts-graphviz` model, nodes and ordered
edges of `subgraphs[0]`) -/

structure Subgraph where
  nodes : List String
  edges : List (String × String)

structure RootGraph where
  subgraphs : List Subgraph

/-- The seeding sweep (TLDWrapper.tsx:279-283): every node of every subgraph
through `addNodeToGroup` with `mainBlock = true`. -/
def seedPhase (subs : List Subgraph) (rows : List CsvRow)
    (plan : Option (List ChangeRecord)) : Except Unit GroupMap :=
  ((subs.map (·.nodes)).flatten).foldlM
    (fun m n => addNodeToGroup n m true rows plan) []

/-! ## Expansion (source: `getConnectedNodes`, TLDWrapper.tsx:501-557) -/

/-- Append a freshly absorbed satellite entry to a group's nodes array and
fold the satellite's state into the group state (TLDWrapper.tsx:542-548). -/
def absorbNode (x : GroupNode) (planPresent : Bool) (satState : String)
    (g : NodeGroup) : NodeGroup :=
  { g with nodes := g.nodes ++ [x],
           state := if !(g.state == "no-op") || !planPresent then g.state
                    else if !(satState == "no-op") then "update" else satState }

/-- Perform the absorption on the group stored under `gKey`. -/
def absorbInto (m : GroupMap) (gKey : String) (x : GroupNode) (planPresent : Bool)
    (satState : String) : GroupMap :=
  mapUpdate m gKey (absorbNode x planPresent satState)

/-- What examining one edge endpoint does before any recursion: nothing, a
thrown `TypeError`, or the absorption of a new member. -/
inductive EdgeAction where
  | skip : EdgeAction
  | err : EdgeAction
  | absorb (newId : String) (rc : List ChangeRecord) : EdgeAction

/-- The guard chain of the `getConnectedNodes` edge loop
(TLDWrapper.tsx:506-533): classify the endpoint, extract its type and name
(which can throw), require it unclaimed, require a CSV row linking the
group's main type to the endpoint type as satellite or data source, and
require the endpoint to exist among the subgraph's nodes. -/
def edgeAction (sub : Subgraph) (rows : List CsvRow) (plan : Option (List ChangeRecord))
    (gType : String) (m : GroupMap) (edgeToId : String) : EdgeAction :=
  match (splitOnC ' ' edgeToId).get? 1 with
  | none => .skip
  | some centralPart =>
    if centralPart == "" then .skip
    else
      let info := checkHclBlockType centralPart
      if info.isResourceWithName || info.isData then
        match getResourceNameAndType info.processedBlockId with
        | .error _ => .err
        | .ok (tOpt, nOpt) =>
          match tOpt, nOpt with
          | some rt, some rn =>
            if !(rt == "") && !(rn == "") && !(presentB m edgeToId) &&
                rows.any (fun row =>
                  ((splitOnC ',' row.mainDiagramBlocks).any (fun s => s == gType)) &&
                  (((splitOnC ',' row.missingResources).any (fun s => s == rt)) ||
                   ((splitOnC ',' row.dataSources).any (fun s => s == rt)))) then
              if sub.nodes.any (fun n => n == edgeToId) then
                let rc :=
                  match plan with
                  | some p => matchingChanges centralPart p
                  | none => []
                .absorb edgeToId rc
              else .skip
            else .skip
          | _, _ => .skip
      else .skip

/-- The edge loop of `getConnectedNodes`: absorb each eligible endpoint and
recurse from it in both directions through `recurse`; `none` is fuel
exhaustion, `some (.error ())` a thrown `TypeError`. -/
def gcnEdges (recurse : String → Bool → GroupMap → Option (Except Unit GroupMap))
    (sub : Subgraph) (rows : List CsvRow) (plan : Option (List ChangeRecord))
    (gKey gType : String) (start : Bool) :
    List (String × String) → GroupMap → Option (Except Unit GroupMap)
  | [], m => some (.ok m)
  | e :: rest, m =>
    match edgeAction sub rows plan gType m (if start then e.2 else e.1) with
    | .skip => gcnEdges recurse sub rows plan gKey gType start rest m
    | .err => some (.error ())
    | .absorb newId rc =>
      match recurse newId start
          (absorbInto m gKey { nodeModel := newId, resourceChanges := rc } plan.isSome
            (satGeneralState (rc.map (fun r => r.actions)))) with
      | none => none
      | some (.error e2) => some (.error e2)
      | some (.ok m2) =>
        match recurse newId (!start) m2 with
        | none => none
        | some (.error e2) => some (.error e2)
        | some (.ok m3) => gcnEdges recurse sub rows plan gKey gType start rest m3

/-- `getConnectedNodes(node, nodeGroup, nodeGroups, subgraph, start, ...)`,
fuel-indexed: filter the edges touching the node on the `start` side and run
the edge loop, recursing with one unit of fuel less. -/
def gcn (sub : Subgraph) (rows : List CsvRow) (plan : Option (List ChangeRecord))
    (gKey gType : String) :
    Nat → String → Bool → GroupMap → Option (Except Unit GroupMap)
  | 0, _, _, _ => none
  | f + 1, nodeId, start, m =>
    gcnEdges (gcn sub rows plan gKey gType f) sub rows plan gKey gType start
      (sub.edges.filter (fun e => (if start then e.1 else e.2) == nodeId)) m

/-- The expansion sweep (TLDWrapper.tsx:285-288): for each seeded group, run
`getConnectedNodes` from its main node in both directions.  The fuel
`sub.nodes.length + 1` strictly exceeds the number of unclaimed nodes. -/
def expandGo (sub : Subgraph) (rows : List CsvRow) (plan : Option (List ChangeRecord)) :
    List String → GroupMap → Option (Except Unit GroupMap)
  | [], m => some (.ok m)
  | k :: ks, m =>
    match mapGet m k with
    | none => expandGo sub rows plan ks m
    | some g =>
      match gcn sub rows plan k g.type (sub.nodes.length + 1) g.mainNode true m with
      | none => none
      | some (.error e) => some (.error e)
      | some (.ok m1) =>
        match gcn sub rows plan k g.type (sub.nodes.length + 1) g.mainNode false m1 with
        | none => none
        | some (.error e) => some (.error e)
        | some (.ok m2) => expandGo sub rows plan ks m2

/-- Seeding followed by expansion (the grouping engine without detailed-mode
orphan handling): the state of the pass after TLDWrapper.tsx:288, before any
pruning or filter runs.  An empty subgraph list with surviving groups cannot
occur; accessing `subgraphs[0]` of an empty list would throw. -/
def groupingPhase (g : RootGraph) (rows : List CsvRow)
    (plan : Option (List ChangeRecord)) : Option (Except Unit GroupMap) :=
  match seedPhase g.subgraphs rows plan with
  | .error e => some (.error e)
  | .ok m =>
    match g.subgraphs.head? with
    | some sg0 => expandGo sg0 rows plan (m.map (·.1)) m
    | none => if m.isEmpty then some (.ok m) else some (.error ())

/-! ## Plan-based pruning (source: TLDWrapper.tsx:304-318) -/

/-- Remove a surviving group's members with an empty change-record list
(TLDWrapper.tsx:313-317). -/
def pruneMembers (g : NodeGroup) : NodeGroup :=
  { g with nodes := g.nodes.filter (fun gn => gn.resourceChanges.length > 0) }

/-- The `nodes[0]` placeholder; never reached during a pass, where every
group's nodes array is nonempty. -/
def emptyGroupNode : GroupNode := { nodeModel := "", resourceChanges := [] }

/-- Whether a group survives pruning: its first node's (the main node's)
change-record list is not empty (TLDWrapper.tsx:308). -/
def keepGroup (g : NodeGroup) : Bool :=
  !((g.nodes.headD emptyGroupNode).resourceChanges.length == 0)

/-- The pruning sweep: drop groups whose first node has zero change records,
then prune zero-change members from the survivors.  Reading `nodes[0]` of a
group with an empty nodes array would throw, embedded as `.error ()`. -/
def prunePhase (m : GroupMap) : Except Unit GroupMap :=
  if m.any (fun p => p.2.nodes.isEmpty) then .error ()
  else .ok ((m.filter (fun p => keepGroup p.2)).map (fun p => (p.1, pruneMembers p.2)))

/-! ## Connectivity resolver (source: TLDWrapper.tsx:350-372) -/

/-- Processing one graph edge: find the first group owning each endpoint and
record the ordered group pair unless it is already recorded.  The source's
`fromGroup !== toGroup` compares the two freshly built `[key, value]` pair
arrays produced by two separate `Array.from(nodeGroups)` calls; the
references are always distinct — also when both endpoints lie in the same
group — so that test never filters anything and is not represented here. -/
def connStep (m : GroupMap) (e : String × String) : GroupMap :=
  let fromGroup := m.find? (fun p => p.2.nodes.any (fun gn => gn.nodeModel == e.1))
  let toGroup := m.find? (fun p => p.2.nodes.any (fun gn => gn.nodeModel == e.2))
  match fromGroup, toGroup with
  | some f, some t =>
    if !(f.2.connectionsOut.contains t.1) && !(t.2.connectionsIn.contains f.1) then
      mapUpdate
        (mapUpdate m f.1 (fun g => { g with connectionsOut := g.connectionsOut ++ [t.1] }))
        t.1 (fun g => { g with connectionsIn := g.connectionsIn ++ [f.1] })
    else m
  | _, _ => m

/-- The edge sweep computing group-level connections. -/
def connectivityPhase (sub : Subgraph) (m : GroupMap) : GroupMap :=
  sub.edges.foldl connStep m

/-! ## Support definitions for the theorems -/

/-- The classification every group member's node id satisfies: its central
part is nonempty and classifies as a resource with both type and name, or as
a data block. -/
def memberOKB (nid : String) : Bool :=
  match (splitOnC ' ' nid).get? 1 with
  | none => false
  | some c =>
    !(c == "") && ((checkHclBlockType c).isResourceWithName || (checkHclBlockType c).isData)

/-- The number of subgraph nodes not yet claimed by any group. -/
def unclaimedCount (sub : Subgraph) (m : GroupMap) : Nat :=
  (sub.nodes.filter (fun n => !(presentB m n))).length

/-- One absorption, as `gcnEdges` performs it: the absorbed node id was
claimed by no group, the expanded group is present in the map, and the node
id passed the classification guard. -/
inductive AbsorbStep (gKey : String) : GroupMap → GroupMap → Prop where
  | mk (m : GroupMap) (x : GroupNode) (pb : Bool) (s : String)
      (hnp : presentB m x.nodeModel = false)
      (hk : (mapGet m gKey).isSome = true)
      (hok : memberOKB x.nodeModel = true) :
      AbsorbStep gKey m (absorbInto m gKey x pb s)

/-- Zero or more absorptions into the group under `gKey`. -/
def Reach (gKey : String) : GroupMap → GroupMap → Prop :=
  Relation.ReflTransGen (AbsorbStep gKey)

/-- Every node id is claimed by at most one membership entry. -/
def QBound (m : GroupMap) : Prop := ∀ n, memberCount m n ≤ 1

/-- Every member of every group passed the classification guard. -/
def MembersOK (m : GroupMap) : Prop :=
  ∀ p ∈ m, ∀ gn ∈ p.2.nodes, memberOKB gn.nodeModel = true

/-- The grouping-pass invariant: distinct keys, at-most-one claim per node
id, and classified members. -/
def PassInv (m : GroupMap) : Prop := keysNodup m ∧ QBound m ∧ MembersOK m

/-- Shape of the map during seeding: every group is a singleton holding the
node that seeded it, stored under that node's central id part, and that node
passed the resource-with-name guard. -/
def SeedShape (m : GroupMap) : Prop :=
  ∀ p ∈ m, ∃ nid rcs, p.2.nodes = [{ nodeModel := nid, resourceChanges := rcs }] ∧
    (splitOnC ' ' nid).get? 1 = some p.1 ∧ memberOKB nid = true

/-- Connection lists free of duplicates. -/
def ConnInv (m : GroupMap) : Prop :=
  ∀ p ∈ m, p.2.connectionsOut.Nodup ∧ p.2.connectionsIn.Nodup

/-- A placeholder group for total lookups in concrete statements. -/
def defaultGroup : NodeGroup :=
  { nodes := [], id := "", mainNode := "", connectionsOut := [], connectionsIn := [],
    name := none, type := "", category := "", iconPath := "", serviceName := "",
    moduleName := "", state := "" }

/-- Outcome predicate for a fuel-indexed run: the fuel sufficed, and if the
run returned normally the result satisfies `P`. -/
def resultOK (r : Option (Except Unit GroupMap)) (P : GroupMap → Prop) : Prop :=
  match r with
  | none => False
  | some (.error _) => True
  | some (.ok m) => P m

/-- The string stored in a group's `name` field, when it is a plain string. -/
def nameStr (g : NodeGroup) : String :=
  match g.name with
  | some (.str s) => s
  | _ => ""

/-! ## Concrete fixtures for witnesses and counterexamples -/

/-- A mapping row: `aws_instance` main blocks, `aws_security_group`
satellites, `aws_ami` data sources. -/
def rowMain : CsvRow :=
  { mainDiagramBlocks := "aws_instance", missingResources := "aws_security_group",
    dataSources := "aws_ami", serviceName := "EC2", iconPath := "icons/ec2.png",
    simplifiedCategory := "Compute", argumentsForName := "-" }

/-- Main node plus its satellite, one edge. -/
def sgPlain : Subgraph :=
  { nodes := ["n1 aws_instance.web", "n2 aws_security_group.sg"],
    edges := [("n1 aws_instance.web", "n2 aws_security_group.sg")] }

/-- Main node plus a named data-source neighbor. -/
def sgData : Subgraph :=
  { nodes := ["n1 aws_instance.web", "n2 data.aws_ami.ubuntu"],
    edges := [("n1 aws_instance.web", "n2 data.aws_ami.ubuntu")] }

/-- Main node plus a bare (nameless) data-source neighbor. -/
def sgRegion : Subgraph :=
  { nodes := ["n1 aws_instance.web", "n2 data.aws_region"],
    edges := [("n1 aws_instance.web", "n2 data.aws_region")] }

/-- A row listing `aws_subnet` as a main block. -/
def rowSubnet : CsvRow :=
  { mainDiagramBlocks := "aws_subnet", missingResources := "", dataSources := "",
    serviceName := "VPC", iconPath := "icons/vpc.png",
    simplifiedCategory := "Networking", argumentsForName := "-" }

/-- Two rows both listing `aws_instance` as a main block, with different
categories, service names, icons and name attributes. -/
def rowCatA : CsvRow :=
  { mainDiagramBlocks := "aws_instance", missingResources := "", dataSources := "",
    serviceName := "SvcA", iconPath := "a.png", simplifiedCategory := "CatA",
    argumentsForName := "attr_a" }

def rowCatB : CsvRow :=
  { mainDiagramBlocks := "aws_instance", missingResources := "", dataSources := "",
    serviceName := "SvcB", iconPath := "b.png", simplifiedCategory := "CatB",
    argumentsForName := "attr_b" }

/-- One change record whose `after` carries distinct values under both name
attributes. -/
def planAttrs : List ChangeRecord :=
  [{ address := "aws_instance.web", actions := ["create"],
     after := some (.obj [("attr_a", .str "NameA"), ("attr_b", .str "NameB")]) }]

/-- One `create` record for the main node only. -/
def planCreate : List ChangeRecord :=
  [{ address := "aws_instance.web", actions := ["create"], after := none }]

/-- Result of the grouping phase on the plain two-node graph without a
plan. -/
def plainMap : GroupMap :=
  match groupingPhase { subgraphs := [sgPlain] } [rowMain] none with
  | some (.ok m) => m
  | _ => []

/-- Result of the grouping phase when a named data node is absorbed. -/
def dataMemberMap : GroupMap :=
  match groupingPhase { subgraphs := [sgData] } [rowMain] none with
  | some (.ok m) => m
  | _ => []

/-- The seeded map of the bare-data-neighbor graph, before expansion. -/
def regionSeedMap : GroupMap :=
  match seedPhase [sgRegion] [rowMain] none with
  | .ok m => m
  | .error _ => []

/-- Result of grouping the plain graph under the `create` plan. -/
def plainPlanMap : GroupMap :=
  match groupingPhase { subgraphs := [sgPlain] } [rowMain] (some planCreate) with
  | some (.ok m) => m
  | _ => []

/-- The connectivity resolver's output on the plain graph's group map. -/
def connPlainMap : GroupMap := connectivityPhase sgPlain plainMap

/-- The instance group after connectivity resolution on the plain graph. -/
def connPlainGroup : NodeGroup :=
  (mapGet connPlainMap "aws_instance.web").getD defaultGroup

/-! # Theorems -/

@[simp] theorem isLow_no_op : isLow "no-op" = true := rfl

@[simp] theorem isLow_read_tag : isLow "read" = true := rfl

@[simp] theorem isLow_update_tag : isLow "update" = false := rfl

theorem mainFoldStep_self (n : String) : mainFoldStep n n = n := by
  simp [mainFoldStep]

theorem mainFoldStep_low_acc (g n : String) (hg : isLow g = true) (hn : isLow n = false) :
    mainFoldStep g n = n := by
  have hne : ¬ n = g := fun h => by simp [h, hg] at hn
  simp [mainFoldStep, beq_iff_eq, hne, hn, hg]

theorem mainFoldStep_high_acc (g n : String) (hg : isLow g = false) (hne : ¬ n = g) :
    mainFoldStep g n = "update" := by
  simp [mainFoldStep, beq_iff_eq, hne, hg]

/-- C2: the left-to-right fold of change-record action tags into one state,
corrected.  `[no-op]` then `[create]` resolves to Create, but `[create]` then
`[no-op]` resolves to Update: a low (`no-op`/`read`) tag is absorbed only
while it is the accumulator; a low tag arriving after a non-low accumulator
yields Update.  `[no-op]`/`[read]` give Read in either order,
`[create]`/`[delete]` give Update in either order, an identical tag repeats
as itself, and any tag differing from a non-low accumulator yields Update. -/
theorem C2_theorem :
    mainGeneralState [["no-op"], ["create"]] = "create" ∧
    mainGeneralState [["create"], ["no-op"]] = "update" ∧
    mainGeneralState [["no-op"], ["read"]] = "read" ∧
    mainGeneralState [["read"], ["no-op"]] = "read" ∧
    mainGeneralState [["create"], ["delete"]] = "update" ∧
    mainGeneralState [["delete"], ["create"]] = "update" ∧
    (∀ g n, isLow g = true → isLow n = false → mainFoldStep g n = n) ∧
    (∀ g n, isLow g = false → ¬ n = g → mainFoldStep g n = "update") ∧
    (∀ n, mainFoldStep n n = n) :=
  ⟨by decide, by decide, by decide, by decide, by decide, by decide,
    mainFoldStep_low_acc, mainFoldStep_high_acc, mainFoldStep_self⟩

/-- Witness for C2: the fold step at the concrete inputs `"create"` (non-low
accumulator) and `"no-op"` yields `"update"`. -/
theorem C2_witness : mainFoldStep "create" "no-op" = "update" :=
  C2_theorem.2.2.2.2.2.2.2.1 "create" "no-op" (by decide) (by decide)

/-- Counterexample to C2 as stated: records `[create]` then `[no-op]` do not
resolve to Create — the main fold yields `"update"`. -/
theorem C2_counterexample :
    mainGeneralState [["create"], ["no-op"]] = "update" ∧
    ("update" : String) ≠ "create" :=
  ⟨by decide, by decide⟩

theorem satFoldStep_mirror (g n : String) :
    satFoldStep (stateMirror g) n = stateMirror (mainFoldStep g n) := by
  by_cases hng : n = g
  · subst hng
    cases hl : isLow n with
    | true =>
      have hm : stateMirror n = n := by simp [stateMirror, hl]
      rw [hm]
      simp [satFoldStep, mainFoldStep, hm]
    | false =>
      by_cases hu : n = "update"
      · subst hu; rfl
      · have hm : stateMirror n = "update" := by simp [stateMirror, hl, hu]
        rw [hm]
        simp [satFoldStep, mainFoldStep, stateMirror, beq_iff_eq, hu, hl, hm]
  · cases hl : isLow g with
    | true =>
      have hm : stateMirror g = g := by simp [stateMirror, hl]
      rw [hm]
      cases hln : isLow n with
      | true => simp [satFoldStep, mainFoldStep, stateMirror, beq_iff_eq, hng, hl, hln]
      | false =>
        by_cases hnu : n = "update"
        · subst hnu
          simp [satFoldStep, mainFoldStep, stateMirror, beq_iff_eq, hng, hl]
        · simp [satFoldStep, mainFoldStep, stateMirror, beq_iff_eq, hng, hl, hln, hnu]
    | false =>
      by_cases hu : g = "update"
      · subst hu
        have hm : stateMirror "update" = "update" := rfl
        rw [hm]
        simp [satFoldStep, mainFoldStep, stateMirror, beq_iff_eq, hng]
      · have hm : stateMirror g = "update" := by simp [stateMirror, hl, hu]
        have hmain : mainFoldStep g n = "update" := by
          simp [mainFoldStep, beq_iff_eq, hng, hl]
        rw [hm, hmain]
        by_cases hnu : n = "update"
        · subst hnu; rfl
        · simp [satFoldStep, stateMirror, beq_iff_eq, hnu]

/-- C3, corrected: the satellite fold is not extensionally equal to the main
fold; it agrees with it exactly up to `stateMirror`, i.e. it returns the main
fold's result when that result is `no-op`, `read` or `update`, and collapses
every other result to `update`. -/
theorem C3_theorem (records : List (List String)) :
    satGeneralState records = stateMirror (mainGeneralState records) := by
  have key : ∀ (ts : List (List String)) (g : String),
      ts.foldl (fun a r => satFoldStep a (joinActions r)) (stateMirror g)
        = stateMirror (ts.foldl (fun a r => mainFoldStep a (joinActions r)) g) := by
    intro ts
    induction ts with
    | nil => intro g; rfl
    | cons r rs ih =>
      intro g
      simp only [List.foldl_cons]
      rw [satFoldStep_mirror]
      exact ih _
  have h := key records "no-op"
  rw [show stateMirror "no-op" = "no-op" from rfl] at h
  exact h

/-- Counterexample to C3 as stated: on the single record `[create]` the main
fold yields `"create"` while the satellite fold yields `"update"`, so the two
folds are not extensionally equal. -/
theorem C3_counterexample :
    mainGeneralState [["create"]] = "create" ∧
    satGeneralState [["create"]] = "update" ∧
    ("create" : String) ≠ "update" :=
  ⟨by decide, by decide, by decide⟩

theorem exceptOk_bind {α β : Type} (a : α) (f : α → Except Unit β) :
    (Except.ok a >>= f) = f a := rfl

/-- C9, corrected: display-name resolution returns a value whenever the
change-record list is empty or the row's attribute path is not a two-segment
dotted path; in the remaining case (dotted path, nonempty records, first
lookup falsy) it can throw. -/
theorem C9_theorem (na : String) (rcs : List ChangeRecord) (rn : String)
    (h : rcs = [] ∨ (splitOnC '.' na).length ≠ 2) :
    ∃ v, resolveName na rcs rn = .ok v := by
  rcases h with h | h
  · subst h
    exact ⟨some (.str rn), rfl⟩
  · by_cases ht : optTruthy (firstLookup na rcs) = true
    · exact ⟨firstLookup na rcs, by simp [resolveName, ht]⟩
    · have hb : (((splitOnC '.' na).length) == 2) = false := beq_eq_false_iff_ne.mpr h
      exact ⟨some (.str rn), by simp [resolveName, ht, hb]⟩

/-- Witness for C9 at a dotted attribute path with no change records. -/
theorem C9_witness : ∃ v, resolveName "a.b" [] "web" = .ok v :=
  C9_theorem "a.b" [] "web" (Or.inl rfl)

/-- Counterexample to C9 as stated: with a dotted attribute path and a first
record whose `after` mapping lacks the first path segment, name resolution
throws instead of falling back to the resource name. -/
theorem C9_counterexample :
    resolveName "a.b"
      [{ address := "aws_instance.web", actions := ["create"], after := some (.obj []) }]
      "web" = .error () := rfl

/-- C10, corrected: a Data endpoint whose residual id is a bare
`aws_`-prefixed type with no name segment passes the `isData` guard, is not
skipped, and `getResourceNameAndType` throws on it (the filter of subsequent
segments is empty and indexing it yields `undefined`), so examining such a
neighbor aborts the whole pass. -/
theorem C10_theorem :
    getResourceNameAndType "aws_region" = .error () ∧
    (checkHclBlockType "data.aws_region").isData = true ∧
    (checkHclBlockType "data.aws_region").processedBlockId = "aws_region" ∧
    groupingPhase { subgraphs := [sgRegion] } [rowMain] none = some (.error ()) :=
  ⟨rfl, rfl, rfl, rfl⟩

/-- Counterexample to C10 as stated: on the seeded map of the
bare-data-neighbor graph, the expansion sweep aborts with an error. -/
theorem C10_counterexample :
    expandGo sgRegion [rowMain] none (regionSeedMap.map (fun p => p.1)) regionSeedMap
      = some (.error ()) := rfl

/-! ## Association-list map lemmas -/

theorem find_replace (k : String) (v : NodeGroup) :
    ∀ m : GroupMap, m.any (fun p => p.1 == k) = true →
      List.find? (fun p => p.1 == k)
        (m.map (fun p => if p.1 == k then (k, v) else p)) = some (k, v) := by
  intro m
  induction m with
  | nil => intro h; simp at h
  | cons p rest ih =>
    intro h
    cases hp : (p.1 == k) with
    | true =>
      simp only [List.map_cons, hp, if_true]
      exact List.find?_cons_of_pos _ (by simp)
    | false =>
      have h' : rest.any (fun p => p.1 == k) = true := by
        rw [List.any_cons, hp] at h
        simpa using h
      simp only [List.map_cons, hp, if_false, Bool.false_eq_true]
      rw [List.find?_cons_of_neg _ (by simp [hp])]
      exact ih h'

theorem mapGet_mapSet_self (m : GroupMap) (k : String) (v : NodeGroup) :
    mapGet (mapSet m k v) k = some v := by
  cases h : m.any (fun p => p.1 == k) with
  | true =>
    unfold mapGet mapSet
    rw [if_pos h, find_replace k v m h]
    rfl
  | false =>
    unfold mapGet mapSet
    rw [if_neg (by rw [h]; exact Bool.false_ne_true), List.find?_append]
    have hnone : List.find? (fun p => p.1 == k) m = none := by
      rw [List.find?_eq_none]
      intro p hp
      have := List.any_eq_false.mp h p hp
      simpa using this
    rw [hnone]
    simp

/-! ## Seeding-fold lemmas -/

theorem resolveName_nil (na rn : String) :
    resolveName na [] rn = .ok (some (.str rn)) := rfl

theorem seedFold_noMatch (nodeId cp rt rn mn gs : String) (mb : Bool) :
    ∀ (rows : List CsvRow) (m : GroupMap),
      (∀ r ∈ rows, rowMatchB mb rt r = false) →
      List.foldlM (seedStep nodeId cp rt rn mn [] gs mb) m rows = .ok m := by
  intro rows
  induction rows with
  | nil => intro m _; rfl
  | cons r rs ih =>
    intro m h
    have hr : rowMatchB mb rt r = false := h r (by simp)
    have hstep : seedStep nodeId cp rt rn mn [] gs mb m r = .ok m := by
      simp [seedStep, hr]
    rw [List.foldlM_cons, hstep, exceptOk_bind]
    exact ih m (fun r hr => h r (List.mem_cons_of_mem _ hr))

theorem seedFold_any (nodeId cp rt rn mn gs : String) (mb : Bool) :
    ∀ (rows : List CsvRow) (m : GroupMap),
      rows.any (fun r => rowMatchB mb rt r) = true →
      ∃ m1 r, rowMatchB mb rt r = true ∧
        List.foldlM (seedStep nodeId cp rt rn mn [] gs mb) m rows = .ok m1 ∧
        mapGet m1 cp = some (rowGroup nodeId cp rt mn [] gs (some (.str rn)) r) := by
  intro rows
  induction rows with
  | nil => intro m h; simp at h
  | cons q qs ih =>
    intro m h
    cases hq : rowMatchB mb rt q with
    | true =>
      have hstep : seedStep nodeId cp rt rn mn [] gs mb m q =
          .ok (mapSet m cp (rowGroup nodeId cp rt mn [] gs (some (.str rn)) q)) := by
        simp [seedStep, hq, resolveName_nil]
      by_cases hqs : qs.any (fun r => rowMatchB mb rt r) = true
      · obtain ⟨m1, r, hrm, hfold, hget⟩ :=
          ih (mapSet m cp (rowGroup nodeId cp rt mn [] gs (some (.str rn)) q)) hqs
        exact ⟨m1, r, hrm, by rw [List.foldlM_cons, hstep, exceptOk_bind]; exact hfold, hget⟩
      · have hall : ∀ r ∈ qs, rowMatchB mb rt r = false := by
          intro r hr
          have hf : qs.any (fun r => rowMatchB mb rt r) = false := by
            cases hx : qs.any (fun r => rowMatchB mb rt r) with
            | true => exact absurd hx hqs
            | false => rfl
          exact List.any_eq_false.mp hf r hr |> fun hx => by
            cases hy : rowMatchB mb rt r with
            | true => exact absurd hy hx
            | false => rfl
        refine ⟨mapSet m cp (rowGroup nodeId cp rt mn [] gs (some (.str rn)) q), q, hq,
          ?_, mapGet_mapSet_self _ _ _⟩
        rw [List.foldlM_cons, hstep, exceptOk_bind]
        exact seedFold_noMatch nodeId cp rt rn mn gs mb qs _ hall
    | false =>
      have hqs : qs.any (fun r => rowMatchB mb rt r) = true := by
        rw [List.any_cons, hq] at h
        simpa using h
      obtain ⟨m1, r, hrm, hfold, hget⟩ := ih m hqs
      have hstep : seedStep nodeId cp rt rn mn [] gs mb m q = .ok m := by
        simp [seedStep, hq]
      exact ⟨m1, r, hrm, by rw [List.foldlM_cons, hstep, exceptOk_bind]; exact hfold, hget⟩

theorem seedFold_last (nodeId cp rt rn mn gs : String) (mb : Bool)
    (rows1 rows2 : List CsvRow) (r : CsvRow) (m : GroupMap)
    (hr : rowMatchB mb rt r = true)
    (h2 : ∀ q ∈ rows2, rowMatchB mb rt q = false) :
    ∃ m1, List.foldlM (seedStep nodeId cp rt rn mn [] gs mb) m (rows1 ++ r :: rows2)
        = .ok m1 ∧
      mapGet m1 cp = some (rowGroup nodeId cp rt mn [] gs (some (.str rn)) r) := by
  have htot : ∀ (rows : List CsvRow) (m0 : GroupMap),
      ∃ m1, List.foldlM (seedStep nodeId cp rt rn mn [] gs mb) m0 rows = .ok m1 := by
    intro rows
    induction rows with
    | nil => intro m0; exact ⟨m0, rfl⟩
    | cons q qs ih =>
      intro m0
      cases hq : rowMatchB mb rt q with
      | true =>
        obtain ⟨m1, hm1⟩ := ih (mapSet m0 cp (rowGroup nodeId cp rt mn [] gs (some (.str rn)) q))
        refine ⟨m1, ?_⟩
        rw [List.foldlM_cons, show seedStep nodeId cp rt rn mn [] gs mb m0 q =
          .ok (mapSet m0 cp (rowGroup nodeId cp rt mn [] gs (some (.str rn)) q)) from by
            simp [seedStep, hq, resolveName_nil], exceptOk_bind]
        exact hm1
      | false =>
        obtain ⟨m1, hm1⟩ := ih m0
        refine ⟨m1, ?_⟩
        rw [List.foldlM_cons, show seedStep nodeId cp rt rn mn [] gs mb m0 q = .ok m0 from by
          simp [seedStep, hq], exceptOk_bind]
        exact hm1
  obtain ⟨mA, hA⟩ := htot rows1 m
  refine ⟨mapSet mA cp (rowGroup nodeId cp rt mn [] gs (some (.str rn)) r), ?_,
    mapGet_mapSet_self _ _ _⟩
  rw [List.foldlM_append, hA, exceptOk_bind, List.foldlM_cons,
    show seedStep nodeId cp rt rn mn [] gs mb mA r =
      .ok (mapSet mA cp (rowGroup nodeId cp rt mn [] gs (some (.str rn)) r)) from by
        simp [seedStep, hr, resolveName_nil], exceptOk_bind]
  exact seedFold_noMatch nodeId cp rt rn mn gs mb rows2 _ h2

theorem addNode_unfold_subnet (rows : List CsvRow) :
    addNodeToGroup "n1 module.vpc.aws_subnet.this" [] true rows none =
      List.foldlM (seedStep "n1 module.vpc.aws_subnet.this" "module.vpc.aws_subnet.this"
        "aws_subnet" "this" "vpc" [] "no-op" true) [] rows := rfl

theorem addNode_unfold_web (rows : List CsvRow) :
    addNodeToGroup "n1 aws_instance.web" [] true rows none =
      List.foldlM (seedStep "n1 aws_instance.web" "aws_instance.web"
        "aws_instance" "web" "" [] "no-op" true) [] rows := rfl

/-- C7: classifying `"n1 module.vpc.aws_subnet.this"` yields module name
`"vpc"`, residual `"aws_subnet.this"`, a resource with both type
`"aws_subnet"` and name `"this"`, and any table with a row listing
`aws_subnet` as a main block seeds a group carrying `moduleName = "vpc"`. -/
theorem C7_theorem (rows : List CsvRow)
    (hmatch : rows.any (fun r => rowMatchB true "aws_subnet" r) = true) :
    (checkHclBlockType "module.vpc.aws_subnet.this").moduleName = "vpc" ∧
    (checkHclBlockType "module.vpc.aws_subnet.this").processedBlockId = "aws_subnet.this" ∧
    (checkHclBlockType "module.vpc.aws_subnet.this").isResourceWithName = true ∧
    getResourceNameAndType "aws_subnet.this" = .ok (some "aws_subnet", some "this") ∧
    ∃ m g, addNodeToGroup "n1 module.vpc.aws_subnet.this" [] true rows none = .ok m ∧
      mapGet m "module.vpc.aws_subnet.this" = some g ∧ g.moduleName = "vpc" := by
  refine ⟨rfl, rfl, rfl, rfl, ?_⟩
  obtain ⟨m1, r, _, hfold, hget⟩ := seedFold_any "n1 module.vpc.aws_subnet.this"
    "module.vpc.aws_subnet.this" "aws_subnet" "this" "vpc" "no-op" true rows [] hmatch
  exact ⟨m1, _, by rw [addNode_unfold_subnet]; exact hfold, hget, rfl⟩

/-- Witness for C7 at a concrete one-row table listing `aws_subnet`. -/
theorem C7_witness :
    ∃ m g, addNodeToGroup "n1 module.vpc.aws_subnet.this" [] true [rowSubnet] none = .ok m ∧
      mapGet m "module.vpc.aws_subnet.this" = some g ∧ g.moduleName = "vpc" :=
  (C7_theorem [rowSubnet] (by decide)).2.2.2.2

/-- C5, corrected: when a resource type is listed in several rows, the LAST
matching row in table order determines the seeded group's category, service
name, icon path and resolved name — every matching row overwrites the map
entry, so the final write wins. -/
theorem C5_theorem (rows1 rows2 : List CsvRow) (r : CsvRow)
    (hr : rowMatchB true "aws_instance" r = true)
    (h2 : ∀ q ∈ rows2, rowMatchB true "aws_instance" q = false) :
    ∃ m g, addNodeToGroup "n1 aws_instance.web" [] true (rows1 ++ r :: rows2) none = .ok m ∧
      mapGet m "aws_instance.web" = some g ∧
      g.category = r.simplifiedCategory ∧ g.serviceName = r.serviceName ∧
      g.iconPath = trimS r.iconPath ∧ g.name = some (.str "web") := by
  obtain ⟨m1, hfold, hget⟩ := seedFold_last "n1 aws_instance.web" "aws_instance.web"
    "aws_instance" "web" "" "no-op" true rows1 rows2 r [] hr h2
  exact ⟨m1, _, by rw [addNode_unfold_web]; exact hfold, hget, rfl, rfl, rfl, rfl⟩

/-- Witness for C5 at the concrete two-row table. -/
theorem C5_witness :
    ∃ m g, addNodeToGroup "n1 aws_instance.web" [] true ([rowCatA] ++ rowCatB :: []) none
        = .ok m ∧
      mapGet m "aws_instance.web" = some g ∧
      g.category = rowCatB.simplifiedCategory ∧ g.serviceName = rowCatB.serviceName ∧
      g.iconPath = trimS rowCatB.iconPath ∧ g.name = some (.str "web") :=
  C5_theorem [rowCatA] [] rowCatB (by decide) (fun q hq => absurd hq (List.not_mem_nil q))

/-- Counterexample to C5 as stated: the first row listing `aws_instance`
supplies category `"CatA"`, service `"SvcA"` and name attribute `attr_a`, yet
the seeded group carries the second row's category `"CatB"`, service
`"SvcB"`, and the name resolved through `attr_b`. -/
theorem C5_counterexample :
    rowMatchB true "aws_instance" rowCatA = true ∧
    (match addNodeToGroup "n1 aws_instance.web" [] true [rowCatA, rowCatB] (some planAttrs) with
      | .ok m => (mapGet m "aws_instance.web").map (fun g => (g.category, g.serviceName, nameStr g))
      | .error _ => none) = some ("CatB", "SvcB", "NameB") ∧
    ("CatB" : String) ≠ "CatA" :=
  ⟨rfl, rfl, by decide⟩

/-! ## Key-set and presence lemmas for the expansion machinery -/

theorem mapUpdate_keys (m : GroupMap) (k : String) (f : NodeGroup → NodeGroup) :
    (mapUpdate m k f).map Prod.fst = m.map Prod.fst := by
  induction m with
  | nil => rfl
  | cons p rest ih =>
    simp only [mapUpdate, List.map_cons] at ih ⊢
    by_cases hp : (p.1 == k) = true
    · simp [hp, ih]
      intro a b _
      by_cases h : a = k <;> simp [h]
    · simp [hp, ih]
      intro a b _
      by_cases h : a = k <;> simp [h]

theorem absorbInto_keys (m : GroupMap) (k : String) (x : GroupNode) (pb : Bool)
    (s : String) : (absorbInto m k x pb s).map Prod.fst = m.map Prod.fst :=
  mapUpdate_keys m k _

theorem mapGet_isSome_keys (m : GroupMap) (k : String) :
    (mapGet m k).isSome = (m.map Prod.fst).any (fun s => s == k) := by
  induction m with
  | nil => rfl
  | cons p rest ih =>
    by_cases hp : (p.1 == k) = true
    · simp [mapGet, List.find?_cons_of_pos _ hp, hp]
    · have hp' : (p.1 == k) = false := by
        cases h : (p.1 == k) with
        | true => exact absurd h hp
        | false => rfl
      have hrw : List.find? (fun q => q.1 == k) (p :: rest) =
          List.find? (fun q => q.1 == k) rest := List.find?_cons_of_neg _ hp
      simp only [mapGet] at ih ⊢
      rw [hrw, List.map_cons, List.any_cons, hp', Bool.false_or]
      exact ih

theorem mapGet_isSome_of_keys_eq (m m' : GroupMap) (k : String)
    (h : m'.map Prod.fst = m.map Prod.fst) :
    (mapGet m' k).isSome = (mapGet m k).isSome := by
  rw [mapGet_isSome_keys, mapGet_isSome_keys, h]

theorem presentB_absorbInto_mono (m : GroupMap) (gKey : String) (x : GroupNode)
    (pb : Bool) (s : String) (n : String) (h : presentB m n = true) :
    presentB (absorbInto m gKey x pb s) n = true := by
  unfold presentB at h ⊢
  rw [List.any_eq_true] at h ⊢
  obtain ⟨p, hp, hpn⟩ := h
  unfold absorbInto mapUpdate
  refine ⟨(fun q => if q.1 == gKey then (q.1, absorbNode x pb s q.2) else q) p,
    List.mem_map_of_mem _ hp, ?_⟩
  by_cases hk : (p.1 == gKey) = true
  · simp only [hk, if_true, absorbNode]
    rw [List.any_append, hpn]
    rfl
  · simp only [hk, Bool.false_eq_true, if_false]
    exact hpn

theorem presentB_absorbInto_new (m : GroupMap) (gKey : String) (x : GroupNode)
    (pb : Bool) (s : String) (hk : (mapGet m gKey).isSome = true) :
    presentB (absorbInto m gKey x pb s) x.nodeModel = true := by
  obtain ⟨p, hp⟩ : ∃ p, m.find? (fun q => q.1 == gKey) = some p := by
    unfold mapGet at hk
    cases h : m.find? (fun q => q.1 == gKey) with
    | none => rw [h] at hk; simp at hk
    | some p => exact ⟨p, rfl⟩
  have hmem := List.mem_of_find?_eq_some hp
  have hkey := List.find?_some hp
  unfold presentB absorbInto mapUpdate
  rw [List.any_eq_true]
  refine ⟨(fun q => if q.1 == gKey then (q.1, absorbNode x pb s q.2) else q) p,
    List.mem_map_of_mem _ hmem, ?_⟩
  simp only [hkey, if_true, absorbNode]
  rw [List.any_append]
  simp

/-! ## Counting unclaimed nodes -/

theorem filter_not_length_le (l : List String) (p q : String → Bool)
    (himp : ∀ a, p a = true → q a = true) :
    (l.filter (fun a => !(q a))).length ≤ (l.filter (fun a => !(p a))).length := by
  have h : ∀ a, (fun a => !(q a)) a = true → (fun a => !(p a)) a = true := by
    intro a ha
    cases hpa : p a with
    | false => simp [hpa]
    | true =>
      have := himp a hpa
      simp only [this] at ha
      exact absurd ha (by simp)
  exact (List.monotone_filter_right l h).length_le

theorem filter_not_length_lt (l : List String) (p q : String → Bool)
    (himp : ∀ a, p a = true → q a = true)
    (x : String) (hx : x ∈ l) (hpx : p x = false) (hqx : q x = true) :
    (l.filter (fun a => !(q a))).length < (l.filter (fun a => !(p a))).length := by
  induction l with
  | nil => cases hx
  | cons a rest ih =>
    by_cases hax : a = x
    · subst hax
      simp only [List.filter_cons, hqx, hpx]
      have hle := filter_not_length_le rest p q himp
      simp
      omega
    · have hrest : x ∈ rest := by
        rcases List.mem_cons.mp hx with h | h
        · exact absurd h.symm hax
        · exact h
      cases hqa : q a with
      | true =>
        cases hpa : p a with
        | true =>
          simp only [List.filter_cons, hqa, hpa]
          simp
          exact ih hrest
        | false =>
          simp only [List.filter_cons, hqa, hpa]
          simp
          have := filter_not_length_le rest p q himp
          omega
      | false =>
        have hpa : p a = false := by
          cases hpa : p a with
          | false => rfl
          | true => rw [himp a hpa] at hqa; exact absurd hqa (by simp)
        simp only [List.filter_cons, hqa, hpa]
        simp
        have := ih hrest
        omega

theorem unclaimed_le_nodes (sub : Subgraph) (m : GroupMap) :
    unclaimedCount sub m ≤ sub.nodes.length :=
  List.length_filter_le _ _

theorem unclaimed_lt_absorb (sub : Subgraph) (m : GroupMap) (gKey : String)
    (x : GroupNode) (pb : Bool) (s : String)
    (hk : (mapGet m gKey).isSome = true)
    (hnp : presentB m x.nodeModel = false) (hmem : x.nodeModel ∈ sub.nodes) :
    unclaimedCount sub (absorbInto m gKey x pb s) < unclaimedCount sub m := by
  unfold unclaimedCount
  exact filter_not_length_lt sub.nodes (fun n => presentB m n)
    (fun n => presentB (absorbInto m gKey x pb s) n)
    (fun n h => presentB_absorbInto_mono m gKey x pb s n h)
    x.nodeModel hmem hnp (presentB_absorbInto_new m gKey x pb s hk)

/-! ## Absorption steps -/

theorem absorbStep_keys {gKey : String} {m m' : GroupMap} (h : AbsorbStep gKey m m') :
    m'.map Prod.fst = m.map Prod.fst := by
  cases h with
  | mk x pb s hnp hk hok => exact absorbInto_keys m gKey x pb s

theorem absorbStep_present_mono {gKey : String} {m m' : GroupMap}
    (h : AbsorbStep gKey m m') (n : String) (hp : presentB m n = true) :
    presentB m' n = true := by
  cases h with
  | mk x pb s hnp hk hok => exact presentB_absorbInto_mono m gKey x pb s n hp

theorem reach_keys_eq {gKey : String} {m m' : GroupMap} (h : Reach gKey m m') :
    m'.map Prod.fst = m.map Prod.fst := by
  induction h with
  | refl => rfl
  | tail _ hstep ih => rw [absorbStep_keys hstep, ih]

theorem reach_present_mono {gKey : String} {m m' : GroupMap} (h : Reach gKey m m')
    (n : String) (hp : presentB m n = true) : presentB m' n = true := by
  induction h with
  | refl => exact hp
  | tail _ hstep ih => exact absorbStep_present_mono hstep n ih

theorem reach_keyIn {gKey : String} {m m' : GroupMap} (h : Reach gKey m m')
    (hk : (mapGet m gKey).isSome = true) : (mapGet m' gKey).isSome = true := by
  rw [mapGet_isSome_of_keys_eq m m' gKey (reach_keys_eq h)]
  exact hk

theorem reach_unclaimed_le (sub : Subgraph) {gKey : String} {m m' : GroupMap}
    (h : Reach gKey m m') : unclaimedCount sub m' ≤ unclaimedCount sub m := by
  unfold unclaimedCount
  exact filter_not_length_le sub.nodes (fun n => presentB m n) (fun n => presentB m' n)
    (fun n hp => reach_present_mono h n hp)

theorem resultOK_mono (r : Option (Except Unit GroupMap)) (P Q : GroupMap → Prop)
    (h : ∀ m, P m → Q m) (hr : resultOK r P) : resultOK r Q := by
  cases r with
  | none => exact hr
  | some x =>
    cases x with
    | error e => exact trivial
    | ok m => exact h m hr

theorem edgeAction_absorb_facts (sub : Subgraph) (rows : List CsvRow)
    (plan : Option (List ChangeRecord)) (gType : String) (m : GroupMap)
    (edgeToId newId : String) (rc : List ChangeRecord)
    (h : edgeAction sub rows plan gType m edgeToId = .absorb newId rc) :
    newId = edgeToId ∧ presentB m edgeToId = false ∧ edgeToId ∈ sub.nodes ∧
      memberOKB edgeToId = true := by
  unfold edgeAction at h
  cases hc : (splitOnC ' ' edgeToId).get? 1 with
  | none => rw [hc] at h; exact EdgeAction.noConfusion h
  | some cp =>
    simp only [hc] at h
    by_cases hcp : (cp == "") = true
    · rw [if_pos hcp] at h; exact EdgeAction.noConfusion h
    · rw [if_neg hcp] at h
      by_cases hcls : ((checkHclBlockType cp).isResourceWithName
          || (checkHclBlockType cp).isData) = true
      · rw [if_pos hcls] at h
        cases hg : getResourceNameAndType (checkHclBlockType cp).processedBlockId with
        | error e =>
          simp only [hg] at h
          exact EdgeAction.noConfusion h
        | ok pr =>
          simp only [hg] at h
          obtain ⟨tO, nO⟩ := pr
          cases tO with
          | none => exact EdgeAction.noConfusion h
          | some rt =>
            cases nO with
            | none => exact EdgeAction.noConfusion h
            | some rn =>
              simp only [] at h
              by_cases hcond : (!(rt == "") && !(rn == "") && !(presentB m edgeToId) &&
                  rows.any (fun row =>
                    ((splitOnC ',' row.mainDiagramBlocks).any (fun s => s == gType)) &&
                    (((splitOnC ',' row.missingResources).any (fun s => s == rt)) ||
                     ((splitOnC ',' row.dataSources).any (fun s => s == rt))))) = true
              · rw [if_pos hcond] at h
                by_cases hmem : (sub.nodes.any (fun n => n == edgeToId)) = true
                · rw [if_pos hmem] at h
                  injection h with h1 h2
                  refine ⟨h1.symm, ?_, ?_, ?_⟩
                  · simp only [Bool.and_eq_true] at hcond
                    obtain ⟨⟨⟨_, _⟩, hp⟩, _⟩ := hcond
                    cases hpb : presentB m edgeToId with
                    | false => rfl
                    | true => rw [hpb] at hp; exact absurd hp (by simp)
                  · rw [List.any_eq_true] at hmem
                    obtain ⟨n, hn, hbeq⟩ := hmem
                    exact (eq_of_beq hbeq) ▸ hn
                  · have hcp' : (cp == "") = false := by
                      cases hx : (cp == "") with
                      | true => exact absurd hx hcp
                      | false => rfl
                    unfold memberOKB
                    rw [hc]
                    simp [hcp', hcls]
                · rw [if_neg hmem] at h; exact EdgeAction.noConfusion h
              · rw [if_neg hcond] at h; exact EdgeAction.noConfusion h
      · rw [if_neg hcls] at h; exact EdgeAction.noConfusion h

theorem gcnEdges_total (sub : Subgraph) (rows : List CsvRow)
    (plan : Option (List ChangeRecord)) (gKey gType : String) (f : Nat)
    (recurse : String → Bool → GroupMap → Option (Except Unit GroupMap))
    (hrec : ∀ m nid st, (mapGet m gKey).isSome = true → unclaimedCount sub m < f →
      resultOK (recurse nid st m) (Reach gKey m)) :
    ∀ (edges : List (String × String)) (st : Bool) (m : GroupMap),
      (mapGet m gKey).isSome = true → unclaimedCount sub m < f + 1 →
      resultOK (gcnEdges recurse sub rows plan gKey gType st edges m) (Reach gKey m) := by
  intro edges
  induction edges with
  | nil =>
    intro st m hk hf
    exact Relation.ReflTransGen.refl
  | cons e rest ih =>
    intro st m hk hf
    simp only [gcnEdges]
    split
    · exact ih st m hk hf
    · exact trivial
    · rename_i newId rc hea
      obtain ⟨hnew, hnp, hmem, hok⟩ :=
        edgeAction_absorb_facts sub rows plan gType m _ newId rc hea
      set m1 := absorbInto m gKey { nodeModel := newId, resourceChanges := rc }
        plan.isSome (satGeneralState (rc.map (fun r => r.actions))) with hm1
      have hnp2 : presentB m newId = false := by rw [hnew]; exact hnp
      have hmem2 : newId ∈ sub.nodes := by rw [hnew]; exact hmem
      have hok2 : memberOKB newId = true := by rw [hnew]; exact hok
      have hstep : AbsorbStep gKey m m1 := by
        rw [hm1]
        exact AbsorbStep.mk m { nodeModel := newId, resourceChanges := rc } plan.isSome
          (satGeneralState (rc.map (fun r => r.actions))) hnp2 hk hok2
      have hkeys1 : m1.map Prod.fst = m.map Prod.fst := by
        rw [hm1]
        exact absorbInto_keys m gKey _ _ _
      have hk1 : (mapGet m1 gKey).isSome = true := by
        rw [mapGet_isSome_of_keys_eq m m1 gKey hkeys1]
        exact hk
      have hlt1 : unclaimedCount sub m1 < f := by
        have hdec : unclaimedCount sub m1 < unclaimedCount sub m := by
          rw [hm1]
          exact unclaimed_lt_absorb sub m gKey _ _ _ hk hnp2 hmem2
        omega
      have h1 := hrec m1 newId st hk1 hlt1
      cases hr1 : recurse newId st m1 with
      | none => rw [hr1] at h1; exact h1.elim
      | some r1 =>
        cases r1 with
        | error e2 => exact trivial
        | ok m2 =>
          show resultOK
            (match recurse newId (!st) m2 with
              | none => none
              | some (Except.error e2) => some (Except.error e2)
              | some (Except.ok m3) => gcnEdges recurse sub rows plan gKey gType st rest m3)
            (Reach gKey m)
          rw [hr1] at h1
          have hreach1 : Reach gKey m1 m2 := h1
          have hreach01 : Reach gKey m m2 := Relation.ReflTransGen.head hstep hreach1
          have hk2 : (mapGet m2 gKey).isSome = true := reach_keyIn hreach1 hk1
          have hlt2 : unclaimedCount sub m2 < f :=
            lt_of_le_of_lt (reach_unclaimed_le sub hreach1) hlt1
          have h2 := hrec m2 newId (!st) hk2 hlt2
          cases hr2 : recurse newId (!st) m2 with
          | none => rw [hr2] at h2; exact h2.elim
          | some r2 =>
            cases r2 with
            | error e2 => exact trivial
            | ok m3 =>
              rw [hr2] at h2
              have hreach2 : Reach gKey m2 m3 := h2
              have hreach03 : Reach gKey m m3 := hreach01.trans hreach2
              have hk3 : (mapGet m3 gKey).isSome = true := reach_keyIn hreach2 hk2
              have hlt3 : unclaimedCount sub m3 < f + 1 := by
                have := reach_unclaimed_le sub hreach2
                omega
              have h3 := ih st m3 hk3 hlt3
              exact resultOK_mono _ _ _ (fun mz hz => hreach03.trans hz) h3

theorem gcn_total (sub : Subgraph) (rows : List CsvRow)
    (plan : Option (List ChangeRecord)) (gKey gType : String) :
    ∀ (f : Nat) (m : GroupMap) (nodeId : String) (start : Bool),
      (mapGet m gKey).isSome = true → unclaimedCount sub m < f →
      resultOK (gcn sub rows plan gKey gType f nodeId start m) (Reach gKey m) := by
  intro f
  induction f with
  | zero =>
    intro m nid st hk hf
    exact absurd hf (by omega)
  | succ f ih =>
    intro m nid st hk hf
    simp only [gcn]
    exact gcnEdges_total sub rows plan gKey gType f (gcn sub rows plan gKey gType f)
      (fun m2 nid2 st2 hk2 hf2 => ih m2 nid2 st2 hk2 hf2) _ st m hk hf

theorem gcn_reach (sub : Subgraph) (rows : List CsvRow)
    (plan : Option (List ChangeRecord)) (gKey gType : String) (f : Nat) (m m' : GroupMap)
    (nodeId : String) (start : Bool)
    (hk : (mapGet m gKey).isSome = true) (hf : unclaimedCount sub m < f)
    (h : gcn sub rows plan gKey gType f nodeId start m = some (.ok m')) :
    Reach gKey m m' := by
  have := gcn_total sub rows plan gKey gType f m nodeId start hk hf
  rw [h] at this
  exact this

theorem gcn_ne_none (sub : Subgraph) (rows : List CsvRow)
    (plan : Option (List ChangeRecord)) (gKey gType : String) (f : Nat) (m : GroupMap)
    (nodeId : String) (start : Bool)
    (hk : (mapGet m gKey).isSome = true) (hf : sub.nodes.length < f) :
    gcn sub rows plan gKey gType f nodeId start m ≠ none := by
  have h := gcn_total sub rows plan gKey gType f m nodeId start hk
    (lt_of_le_of_lt (unclaimed_le_nodes sub m) hf)
  intro hno
  rw [hno] at h
  exact h

theorem expandGo_ne_none (sub : Subgraph) (rows : List CsvRow)
    (plan : Option (List ChangeRecord)) :
    ∀ (ks : List String) (m : GroupMap), expandGo sub rows plan ks m ≠ none := by
  intro ks
  induction ks with
  | nil =>
    intro m h
    exact Option.noConfusion h
  | cons k ks ih =>
    intro m
    simp only [expandGo]
    cases hg : mapGet m k with
    | none => exact ih m
    | some g =>
      show (match gcn sub rows plan k g.type (sub.nodes.length + 1) g.mainNode true m with
        | none => none
        | some (Except.error e) => some (Except.error e)
        | some (Except.ok m1) =>
          match gcn sub rows plan k g.type (sub.nodes.length + 1) g.mainNode false m1 with
          | none => none
          | some (Except.error e) => some (Except.error e)
          | some (Except.ok m2) => expandGo sub rows plan ks m2) ≠ none
      have hk : (mapGet m k).isSome = true := by rw [hg]; rfl
      have hb : unclaimedCount sub m < sub.nodes.length + 1 := by
        have := unclaimed_le_nodes sub m
        omega
      have h1 := gcn_total sub rows plan k g.type (sub.nodes.length + 1) m g.mainNode true hk hb
      cases hr1 : gcn sub rows plan k g.type (sub.nodes.length + 1) g.mainNode true m with
      | none => rw [hr1] at h1; exact h1.elim
      | some r1 =>
        cases r1 with
        | error e => exact fun hx => Option.noConfusion hx
        | ok m1 =>
          show (match gcn sub rows plan k g.type (sub.nodes.length + 1) g.mainNode false m1 with
            | none => none
            | some (Except.error e) => some (Except.error e)
            | some (Except.ok m2) => expandGo sub rows plan ks m2) ≠ none
          rw [hr1] at h1
          have hreach1 : Reach k m m1 := h1
          have hk1 : (mapGet m1 k).isSome = true := reach_keyIn hreach1 hk
          have hb1 : unclaimedCount sub m1 < sub.nodes.length + 1 := by
            have := unclaimed_le_nodes sub m1
            omega
          have h2 := gcn_total sub rows plan k g.type (sub.nodes.length + 1) m1 g.mainNode
            false hk1 hb1
          cases hr2 : gcn sub rows plan k g.type (sub.nodes.length + 1) g.mainNode false m1 with
          | none => rw [hr2] at h2; exact h2.elim
          | some r2 =>
            cases r2 with
            | error e => exact fun hx => Option.noConfusion hx
            | ok m2 => exact ih m2

theorem groupingPhase_ne_none (g : RootGraph) (rows : List CsvRow)
    (plan : Option (List ChangeRecord)) : groupingPhase g rows plan ≠ none := by
  unfold groupingPhase
  cases hs : seedPhase g.subgraphs rows plan with
  | error e => exact fun hx => Option.noConfusion hx
  | ok m =>
    show (match g.subgraphs.head? with
      | some sg0 => expandGo sg0 rows plan (m.map (fun p => p.1)) m
      | none =>
        if m.isEmpty = true then some (Except.ok m) else some (Except.error ())) ≠ none
    cases hh : g.subgraphs.head? with
    | some sg0 => exact expandGo_ne_none sg0 rows plan (m.map (fun p => p.1)) m
    | none =>
      by_cases he : m.isEmpty = true
      · rw [if_pos he]; exact fun hx => Option.noConfusion hx
      · rw [if_neg he]; exact fun hx => Option.noConfusion hx

/-- C6: the recursive expansion terminates on every finite input graph.  Any
fuel exceeding the number of subgraph nodes suffices for `getConnectedNodes`
— each recursive call happens only after an unclaimed node is appended to a
group, so the recursion depth is bounded by the node count — and the whole
grouping pass (which runs at fuel `nodes + 1`) always returns a result
rather than exhausting its fuel. -/
theorem C6_theorem :
    (∀ (sub : Subgraph) (rows : List CsvRow) (plan : Option (List ChangeRecord))
        (gKey gType : String) (f : Nat) (m : GroupMap) (nodeId : String) (start : Bool),
        (mapGet m gKey).isSome = true → sub.nodes.length < f →
        gcn sub rows plan gKey gType f nodeId start m ≠ none) ∧
    (∀ (g : RootGraph) (rows : List CsvRow) (plan : Option (List ChangeRecord)),
        groupingPhase g rows plan ≠ none) :=
  ⟨fun sub rows plan gKey gType f m nodeId start hk hf =>
      gcn_ne_none sub rows plan gKey gType f m nodeId start hk hf,
    groupingPhase_ne_none⟩

/-- Witness for C6 on the concrete two-node graph at fuel 3. -/
theorem C6_witness :
    gcn sgPlain [rowMain] none "aws_instance.web" "aws_instance" 3
      "n1 aws_instance.web" true plainMap ≠ none :=
  C6_theorem.1 sgPlain [rowMain] none "aws_instance.web" "aws_instance" 3 plainMap
    "n1 aws_instance.web" true (by decide) (by decide)

/-! ## Membership counting -/

theorem memberCount_cons (p : String × NodeGroup) (rest : GroupMap) (n : String) :
    memberCount (p :: rest) n =
      (p.2.nodes.filter (fun gn => gn.nodeModel == n)).length + memberCount rest n := by
  unfold memberCount
  rw [List.map_cons, List.sum_cons]

theorem absorbInto_cons (p : String × NodeGroup) (rest : GroupMap) (k : String)
    (x : GroupNode) (pb : Bool) (s : String) :
    absorbInto (p :: rest) k x pb s =
      (if (p.1 == k) = true then (p.1, absorbNode x pb s p.2) else p)
        :: absorbInto rest k x pb s := rfl

theorem presentB_false_count (m : GroupMap) (n : String) (h : presentB m n = false) :
    memberCount m n = 0 := by
  induction m with
  | nil => rfl
  | cons p rest ih =>
    unfold presentB at h
    rw [List.any_cons] at h
    have h1 : (p.2.nodes.any (fun gn => gn.nodeModel == n)) = false := by
      cases hx : p.2.nodes.any (fun gn => gn.nodeModel == n) with
      | false => rfl
      | true => rw [hx] at h; simp at h
    have h2 : presentB rest n = false := by
      unfold presentB
      cases hx : rest.any (fun q => q.2.nodes.any (fun gn => gn.nodeModel == n)) with
      | false => rfl
      | true => rw [hx] at h; simp at h
    rw [memberCount_cons]
    have hf : (p.2.nodes.filter (fun gn => gn.nodeModel == n)).length = 0 := by
      rw [List.length_eq_zero, List.filter_eq_nil_iff]
      intro a ha
      have := List.any_eq_false.mp h1 a ha
      simpa using this
    rw [hf, ih h2]

theorem mapUpdate_nokey (m : GroupMap) (k : String) (f : NodeGroup → NodeGroup)
    (h : ∀ p ∈ m, (p.1 == k) = false) : mapUpdate m k f = m := by
  induction m with
  | nil => rfl
  | cons p rest ih =>
    have hp := h p (by simp)
    have ih2 := ih (fun q hq => h q (List.mem_cons_of_mem _ hq))
    unfold mapUpdate at ih2 ⊢
    rw [List.map_cons, ih2]
    simp [hp]

theorem memberCount_absorb_other (m : GroupMap) (k : String) (x : GroupNode) (pb : Bool)
    (s : String) (n : String) (hn : (x.nodeModel == n) = false) :
    memberCount (absorbInto m k x pb s) n = memberCount m n := by
  induction m with
  | nil => rfl
  | cons p rest ih =>
    rw [absorbInto_cons, memberCount_cons, memberCount_cons, ih]
    by_cases hp : (p.1 == k) = true
    · simp only [hp, if_true, absorbNode]
      rw [List.filter_append, List.length_append]
      simp [hn]
    · simp [hp]

theorem memberCount_absorb_self_le (m : GroupMap) (k : String) (x : GroupNode) (pb : Bool)
    (s : String) (hnd : keysNodup m) :
    memberCount (absorbInto m k x pb s) x.nodeModel ≤ memberCount m x.nodeModel + 1 := by
  induction m with
  | nil => simp [absorbInto, mapUpdate, memberCount]
  | cons p rest ih =>
    have hnd2 : keysNodup rest := by
      unfold keysNodup at hnd ⊢
      rw [List.map_cons] at hnd
      exact (List.nodup_cons.mp hnd).2
    rw [absorbInto_cons, memberCount_cons, memberCount_cons]
    by_cases hp : (p.1 == k) = true
    · have hkp : k = p.1 := (eq_of_beq hp).symm
      have hnok : ∀ q ∈ rest, (q.1 == k) = false := by
        intro q hq
        unfold keysNodup at hnd
        rw [List.map_cons] at hnd
        have hnotin := (List.nodup_cons.mp hnd).1
        cases hx : (q.1 == k) with
        | false => rfl
        | true =>
          exfalso
          have hqe : q.1 = k := eq_of_beq hx
          have hmemk : q.1 ∈ rest.map Prod.fst := List.mem_map_of_mem Prod.fst hq
          rw [hqe, hkp] at hmemk
          exact absurd hmemk hnotin
      have hrest : absorbInto rest k x pb s = rest := mapUpdate_nokey rest k _ hnok
      rw [hrest]
      simp only [hp, if_true, absorbNode]
      rw [List.filter_append, List.length_append]
      have hone := List.length_filter_le (fun gn => gn.nodeModel == x.nodeModel) [x]
      simp only [List.length_cons, List.length_nil] at hone
      omega
    · simp only [hp, Bool.false_eq_true, if_false]
      have := ih hnd2
      omega

theorem absorbStep_inv {gKey : String} {m m' : GroupMap} (h : AbsorbStep gKey m m')
    (hi : PassInv m) : PassInv m' := by
  obtain ⟨hnd, hq, hmo⟩ := hi
  cases h with
  | mk x pb s hnp hk hok =>
    refine ⟨?_, ?_, ?_⟩
    · unfold keysNodup at hnd ⊢
      rw [absorbInto_keys]
      exact hnd
    · intro n
      by_cases hxn : (x.nodeModel == n) = true
      · have hxe : x.nodeModel = n := eq_of_beq hxn
        subst hxe
        have h0 : memberCount m x.nodeModel = 0 := presentB_false_count m _ hnp
        have hle := memberCount_absorb_self_le m gKey x pb s hnd
        omega
      · have hxf : (x.nodeModel == n) = false := by
          cases hz : (x.nodeModel == n) with
          | true => exact absurd hz hxn
          | false => rfl
        rw [memberCount_absorb_other m gKey x pb s n hxf]
        exact hq n
    · intro p hp gn hgn
      unfold absorbInto mapUpdate at hp
      obtain ⟨q, hq2, himg⟩ := List.mem_map.mp hp
      by_cases hqk : (q.1 == gKey) = true
      · rw [if_pos hqk] at himg
        rw [← himg] at hgn
        simp only [absorbNode] at hgn
        rcases List.mem_append.mp hgn with hL | hR
        · exact hmo q hq2 gn hL
        · have hgx : gn = x := by simpa using hR
          rw [hgx]
          exact hok
      · rw [if_neg hqk] at himg
        rw [← himg] at hgn
        exact hmo q hq2 gn hgn

theorem reach_inv {gKey : String} {m m' : GroupMap} (h : Reach gKey m m')
    (hi : PassInv m) : PassInv m' := by
  induction h with
  | refl => exact hi
  | tail _ hstep ih => exact absorbStep_inv hstep ih

/-! ## Seeding establishes the pass invariant -/

theorem mapSet_replace_keys (m : GroupMap) (k : String) (v : NodeGroup) :
    (m.map (fun p => if p.1 == k then (k, v) else p)).map Prod.fst = m.map Prod.fst := by
  induction m with
  | nil => rfl
  | cons p rest ih =>
    rw [List.map_cons, List.map_cons, List.map_cons, ih]
    by_cases hp : (p.1 == k) = true
    · have hpe : p.1 = k := eq_of_beq hp
      simp [hp, hpe]
    · simp [hp]

theorem keysNodup_mapSet (m : GroupMap) (k : String) (v : NodeGroup)
    (hnd : keysNodup m) : keysNodup (mapSet m k v) := by
  unfold mapSet
  by_cases h : m.any (fun p => p.1 == k) = true
  · rw [if_pos h]
    unfold keysNodup
    rw [mapSet_replace_keys]
    exact hnd
  · rw [if_neg h]
    unfold keysNodup
    rw [List.map_append, List.nodup_append]
    refine ⟨hnd, List.nodup_singleton k, ?_⟩
    intro a ha hb
    have hak : a = k := by simpa using hb
    subst hak
    obtain ⟨p, hp, hfst⟩ := List.mem_map.mp ha
    have hbeq : (p.1 == a) = true := beq_iff_eq.mpr hfst
    have : m.any (fun p => p.1 == a) = true := List.any_eq_true.mpr ⟨p, hp, hbeq⟩
    exact absurd this h

theorem mem_mapSet (p : String × NodeGroup) (m : GroupMap) (k : String) (v : NodeGroup)
    (hp : p ∈ mapSet m k v) : p = (k, v) ∨ p ∈ m := by
  unfold mapSet at hp
  by_cases h : m.any (fun q => q.1 == k) = true
  · rw [if_pos h] at hp
    obtain ⟨q, hq, himg⟩ := List.mem_map.mp hp
    by_cases hqk : (q.1 == k) = true
    · rw [if_pos hqk] at himg
      exact Or.inl himg.symm
    · rw [if_neg hqk] at himg
      exact Or.inr (himg ▸ hq)
  · rw [if_neg h] at hp
    rcases List.mem_append.mp hp with hL | hR
    · exact Or.inr hL
    · exact Or.inl (by simpa using hR)

theorem seedStep_inv (nodeId cp rt rn mn : String) (rc : List ChangeRecord) (gs : String)
    (mb : Bool) (row : CsvRow) (m m' : GroupMap)
    (hkey : (splitOnC ' ' nodeId).get? 1 = some cp) (hok : memberOKB nodeId = true)
    (h : seedStep nodeId cp rt rn mn rc gs mb m row = .ok m')
    (hnd : keysNodup m) (hs : SeedShape m) : keysNodup m' ∧ SeedShape m' := by
  unfold seedStep at h
  by_cases hm : rowMatchB mb rt row = true
  · rw [if_pos hm] at h
    cases hres : resolveName (nameAttributeOf mb rt row) rc rn with
    | error e => rw [hres] at h; exact Except.noConfusion h
    | ok nm =>
      rw [hres] at h
      injection h with h
      subst h
      constructor
      · exact keysNodup_mapSet m cp _ hnd
      · intro p hp
        rcases mem_mapSet p m cp _ hp with he | hin
        · refine ⟨nodeId, rc, ?_, ?_, hok⟩
          · rw [he]
            rfl
          · rw [he]
            exact hkey
        · exact hs p hin
  · rw [if_neg hm] at h
    injection h with h
    subst h
    exact ⟨hnd, hs⟩

theorem seedFoldM_inv (nodeId cp rt rn mn : String) (rc : List ChangeRecord) (gs : String)
    (mb : Bool)
    (hkey : (splitOnC ' ' nodeId).get? 1 = some cp) (hok : memberOKB nodeId = true) :
    ∀ (rows : List CsvRow) (m m' : GroupMap),
      List.foldlM (seedStep nodeId cp rt rn mn rc gs mb) m rows = .ok m' →
      keysNodup m → SeedShape m → keysNodup m' ∧ SeedShape m' := by
  intro rows
  induction rows with
  | nil =>
    intro m m' h hnd hs
    injection h with h
    subst h
    exact ⟨hnd, hs⟩
  | cons row rest ih =>
    intro m m' h hnd hs
    rw [List.foldlM_cons] at h
    cases hstep : seedStep nodeId cp rt rn mn rc gs mb m row with
    | error e => rw [hstep] at h; exact Except.noConfusion h
    | ok m1 =>
      rw [hstep, exceptOk_bind] at h
      obtain ⟨hnd1, hs1⟩ :=
        seedStep_inv nodeId cp rt rn mn rc gs mb row m m1 hkey hok hstep hnd hs
      exact ih m1 m' h hnd1 hs1

theorem addNode_inv (nodeId : String) (m : GroupMap) (mb : Bool) (rows : List CsvRow)
    (plan : Option (List ChangeRecord)) (m' : GroupMap)
    (h : addNodeToGroup nodeId m mb rows plan = .ok m')
    (hnd : keysNodup m) (hs : SeedShape m) : keysNodup m' ∧ SeedShape m' := by
  unfold addNodeToGroup at h
  cases hc : (splitOnC ' ' nodeId).get? 1 with
  | none =>
    rw [hc] at h
    injection h with h
    subst h
    exact ⟨hnd, hs⟩
  | some cp =>
    simp only [hc] at h
    by_cases hcp : (cp == "") = true
    · rw [if_pos hcp] at h
      injection h with h
      subst h
      exact ⟨hnd, hs⟩
    · rw [if_neg hcp] at h
      by_cases hrw : (checkHclBlockType cp).isResourceWithName = true
      · rw [if_pos hrw] at h
        cases hg : getResourceNameAndType (checkHclBlockType cp).processedBlockId with
        | error e => rw [hg] at h; exact Except.noConfusion h
        | ok pr =>
          simp only [hg] at h
          obtain ⟨tO, nO⟩ := pr
          cases tO with
          | none =>
            injection h with h
            subst h
            exact ⟨hnd, hs⟩
          | some rt =>
            cases nO with
            | none =>
              injection h with h
              subst h
              exact ⟨hnd, hs⟩
            | some rn =>
              replace h : (if !(rt == "") && !(rn == "") then
                  List.foldlM (seedStep nodeId cp rt rn (checkHclBlockType cp).moduleName
                    (planChangesFor plan cp)
                    (mainGeneralState ((planChangesFor plan cp).map (fun r => r.actions)))
                    mb) m rows
                else Except.ok m) = Except.ok m' := h
              by_cases hcond : (!(rt == "") && !(rn == "")) = true
              · rw [if_pos hcond] at h
                have hok : memberOKB nodeId = true := by
                  unfold memberOKB
                  rw [hc]
                  have hcpf : (cp == "") = false := by
                    cases hz : (cp == "") with
                    | true => exact absurd hz hcp
                    | false => rfl
                  simp [hcpf, hrw]
                exact seedFoldM_inv nodeId cp rt rn _ _ _ mb hc hok rows m m' h hnd hs
              · rw [if_neg hcond] at h
                injection h with h
                subst h
                exact ⟨hnd, hs⟩
      · rw [if_neg hrw] at h
        injection h with h
        subst h
        exact ⟨hnd, hs⟩

theorem seedPhase_inv (subs : List Subgraph) (rows : List CsvRow)
    (plan : Option (List ChangeRecord)) (m' : GroupMap)
    (h : seedPhase subs rows plan = .ok m') : keysNodup m' ∧ SeedShape m' := by
  unfold seedPhase at h
  have key : ∀ (ns : List String) (m0 : GroupMap),
      List.foldlM (fun m n => addNodeToGroup n m true rows plan) m0 ns = .ok m' →
      keysNodup m0 → SeedShape m0 → keysNodup m' ∧ SeedShape m' := by
    intro ns
    induction ns with
    | nil =>
      intro m0 h0 hnd hs
      injection h0 with h0
      subst h0
      exact ⟨hnd, hs⟩
    | cons nid rest ih =>
      intro m0 h0 hnd hs
      rw [List.foldlM_cons] at h0
      cases ha : addNodeToGroup nid m0 true rows plan with
      | error e => rw [ha] at h0; exact Except.noConfusion h0
      | ok m1 =>
        rw [ha, exceptOk_bind] at h0
        obtain ⟨hnd1, hs1⟩ := addNode_inv nid m0 true rows plan m1 ha hnd hs
        exact ih m1 h0 hnd1 hs1
  exact key _ [] h List.nodup_nil (fun p hp => absurd hp (List.not_mem_nil p))

theorem seedShape_count : ∀ (m : GroupMap), keysNodup m → SeedShape m → QBound m := by
  intro m
  induction m with
  | nil =>
    intro _ _ n
    simp [memberCount]
  | cons p rest ih =>
    intro hnd hs n
    have hnd2 : keysNodup rest := by
      unfold keysNodup at hnd ⊢
      rw [List.map_cons] at hnd
      exact (List.nodup_cons.mp hnd).2
    have hs2 : SeedShape rest := fun q hq => hs q (List.mem_cons_of_mem _ hq)
    rw [memberCount_cons]
    obtain ⟨nid, rcs, hnodes, hkey, _⟩ := hs p (by simp)
    rw [hnodes]
    by_cases hb : (nid == n) = true
    · have hbe : nid = n := eq_of_beq hb
      have hz : memberCount rest n = 0 := by
        apply presentB_false_count
        cases hpz : presentB rest n with
        | false => rfl
        | true =>
          exfalso
          unfold presentB at hpz
          rw [List.any_eq_true] at hpz
          obtain ⟨q, hq, hqn⟩ := hpz
          obtain ⟨nid2, rcs2, hnodes2, hkey2, _⟩ := hs2 q hq
          rw [hnodes2] at hqn
          have hn2 : (nid2 == n) = true := by simpa using hqn
          have hn2e : nid2 = n := eq_of_beq hn2
          have hkq : (splitOnC ' ' n).get? 1 = some q.1 := by rw [← hn2e]; exact hkey2
          have hkp : (splitOnC ' ' n).get? 1 = some p.1 := by rw [← hbe]; exact hkey
          rw [hkq] at hkp
          injection hkp with hqp
          have hmemk : q.1 ∈ rest.map Prod.fst := List.mem_map_of_mem Prod.fst hq
          rw [hqp] at hmemk
          unfold keysNodup at hnd
          rw [List.map_cons] at hnd
          exact absurd hmemk (List.nodup_cons.mp hnd).1
      rw [hz]
      simp [hb]
    · have hbf : (nid == n) = false := by
        cases hz : (nid == n) with
        | true => exact absurd hz hb
        | false => rfl
      have hrest := ih hnd2 hs2 n
      simp only [List.filter_cons, hbf]
      simpa using hrest

theorem seedShape_membersOK (m : GroupMap) (hs : SeedShape m) : MembersOK m := by
  intro p hp gn hgn
  obtain ⟨nid, rcs, hnodes, _, hok⟩ := hs p hp
  rw [hnodes] at hgn
  have hg : gn = { nodeModel := nid, resourceChanges := rcs } := by simpa using hgn
  rw [hg]
  exact hok

theorem expandGo_inv (sub : Subgraph) (rows : List CsvRow)
    (plan : Option (List ChangeRecord)) :
    ∀ (ks : List String) (m m' : GroupMap), PassInv m →
      expandGo sub rows plan ks m = some (.ok m') → PassInv m' := by
  intro ks
  induction ks with
  | nil =>
    intro m m' hi h
    simp only [expandGo] at h
    injection h with h
    injection h with h
    subst h
    exact hi
  | cons k ks ih =>
    intro m m' hi h
    simp only [expandGo] at h
    cases hg : mapGet m k with
    | none =>
      rw [hg] at h
      exact ih m m' hi h
    | some g =>
      rw [hg] at h
      replace h : (match gcn sub rows plan k g.type (sub.nodes.length + 1) g.mainNode true m with
        | none => none
        | some (Except.error e) => some (Except.error e)
        | some (Except.ok m1) =>
          match gcn sub rows plan k g.type (sub.nodes.length + 1) g.mainNode false m1 with
          | none => none
          | some (Except.error e) => some (Except.error e)
          | some (Except.ok m2) => expandGo sub rows plan ks m2) = some (Except.ok m') := h
      have hk : (mapGet m k).isSome = true := by rw [hg]; rfl
      have hb : unclaimedCount sub m < sub.nodes.length + 1 := by
        have := unclaimed_le_nodes sub m
        omega
      cases hr1 : gcn sub rows plan k g.type (sub.nodes.length + 1) g.mainNode true m with
      | none => rw [hr1] at h; exact Option.noConfusion h
      | some r1 =>
        rw [hr1] at h
        cases r1 with
        | error e =>
          exfalso
          injection h with h2
          exact Except.noConfusion h2
        | ok m1 =>
          replace h : (match gcn sub rows plan k g.type (sub.nodes.length + 1) g.mainNode
              false m1 with
            | none => none
            | some (Except.error e) => some (Except.error e)
            | some (Except.ok m2) => expandGo sub rows plan ks m2) = some (Except.ok m') := h
          have hreach1 : Reach k m m1 :=
            gcn_reach sub rows plan k g.type _ m m1 g.mainNode true hk hb hr1
          have hi1 : PassInv m1 := reach_inv hreach1 hi
          have hk1 : (mapGet m1 k).isSome = true := reach_keyIn hreach1 hk
          have hb1 : unclaimedCount sub m1 < sub.nodes.length + 1 := by
            have := unclaimed_le_nodes sub m1
            omega
          cases hr2 : gcn sub rows plan k g.type (sub.nodes.length + 1) g.mainNode false m1 with
          | none => rw [hr2] at h; exact Option.noConfusion h
          | some r2 =>
            rw [hr2] at h
            cases r2 with
            | error e =>
              exfalso
              injection h with h2
              exact Except.noConfusion h2
            | ok m2 =>
              have hreach2 : Reach k m1 m2 :=
                gcn_reach sub rows plan k g.type _ m1 m2 g.mainNode false hk1 hb1 hr2
              have hi2 : PassInv m2 := reach_inv hreach2 hi1
              exact ih m2 m' hi2 h

/-- C1, corrected: after seeding and expansion (no detailed mode), every
graph node id occurs in the `nodes` list of at most one group, and at most
once there — the `isNodePresent` check before absorption and the
key-overwriting seeding enforce this.  But the members are NOT all
resource-classified: every member's central part classifies either as a
resource with both type and name or as a Data block, and absorbed data
sources are genuine Data blocks, so the membership union is not a subset of
resource-classified nodes. -/
theorem C1_theorem (g : RootGraph) (rows : List CsvRow)
    (plan : Option (List ChangeRecord)) (m' : GroupMap)
    (h : groupingPhase g rows plan = some (.ok m')) :
    (∀ n, memberCount m' n ≤ 1) ∧
    (∀ p ∈ m', ∀ gn ∈ p.2.nodes, memberOKB gn.nodeModel = true) := by
  unfold groupingPhase at h
  cases hs : seedPhase g.subgraphs rows plan with
  | error e =>
    rw [hs] at h
    exfalso
    injection h with h2
    exact Except.noConfusion h2
  | ok m0 =>
    rw [hs] at h
    replace h : (match g.subgraphs.head? with
      | some sg0 => expandGo sg0 rows plan (m0.map (fun p => p.1)) m0
      | none =>
        if m0.isEmpty = true then some (Except.ok m0) else some (Except.error ()))
        = some (Except.ok m') := h
    obtain ⟨hnd0, hsh0⟩ := seedPhase_inv g.subgraphs rows plan m0 hs
    have hi0 : PassInv m0 :=
      ⟨hnd0, seedShape_count m0 hnd0 hsh0, seedShape_membersOK m0 hsh0⟩
    cases hh : g.subgraphs.head? with
    | some sg0 =>
      rw [hh] at h
      obtain ⟨_, hq, hmo⟩ := expandGo_inv sg0 rows plan _ m0 m' hi0 h
      exact ⟨hq, hmo⟩
    | none =>
      rw [hh] at h
      by_cases he : m0.isEmpty = true
      · rw [if_pos he] at h
        injection h with h
        injection h with h
        subst h
        obtain ⟨_, hq, hmo⟩ := hi0
        exact ⟨hq, hmo⟩
      · rw [if_neg he] at h
        exfalso
        injection h with h2
        exact Except.noConfusion h2

/-- Witness for C1 on the plain two-node graph. -/
theorem C1_witness : memberCount plainMap "n2 aws_security_group.sg" ≤ 1 :=
  (C1_theorem { subgraphs := [sgPlain] } [rowMain] none plainMap rfl).1
    "n2 aws_security_group.sg"

/-- Counterexample to C1 as stated: the grouping pass absorbs the named data
source `data.aws_ami.ubuntu` into the instance group, and a Data block is not
resource-classified, so the membership union is not a subset of
resource-classified nodes. -/
theorem C1_counterexample :
    groupingPhase { subgraphs := [sgData] } [rowMain] none = some (.ok dataMemberMap) ∧
    presentB dataMemberMap "n2 data.aws_ami.ubuntu" = true ∧
    (checkHclBlockType "data.aws_ami.ubuntu").isResource = false ∧
    (checkHclBlockType "data.aws_ami.ubuntu").isData = true :=
  ⟨rfl, rfl, rfl, rfl⟩

/-! ## Connectivity resolver -/

theorem nodup_append_singleton {l : List String} {a : String} (hl : l.Nodup)
    (ha : a ∉ l) : (l ++ [a]).Nodup := by
  rw [List.nodup_append]
  refine ⟨hl, List.nodup_singleton a, ?_⟩
  intro x hx hxa
  have hxe : x = a := by simpa using hxa
  subst hxe
  exact ha hx

theorem keysNodup_unique : ∀ (m : GroupMap), keysNodup m →
    ∀ p ∈ m, ∀ q ∈ m, p.1 = q.1 → p = q := by
  intro m
  induction m with
  | nil =>
    intro _ p hp
    cases hp
  | cons r rest ih =>
    intro hnd p hp q hq hpq
    have hnd2 : keysNodup rest := by
      unfold keysNodup at hnd ⊢
      rw [List.map_cons] at hnd
      exact (List.nodup_cons.mp hnd).2
    have hrk : r.1 ∉ rest.map Prod.fst := by
      unfold keysNodup at hnd
      rw [List.map_cons] at hnd
      exact (List.nodup_cons.mp hnd).1
    rcases List.mem_cons.mp hp with hp1 | hp2
    · rcases List.mem_cons.mp hq with hq1 | hq2
      · rw [hp1, hq1]
      · exfalso
        subst hp1
        have hqk : q.1 ∈ rest.map Prod.fst := List.mem_map_of_mem Prod.fst hq2
        rw [← hpq] at hqk
        exact hrk hqk
    · rcases List.mem_cons.mp hq with hq1 | hq2
      · exfalso
        subst hq1
        have hpk : p.1 ∈ rest.map Prod.fst := List.mem_map_of_mem Prod.fst hp2
        rw [hpq] at hpk
        exact hrk hpk
      · exact ih hnd2 p hp2 q hq2 hpq

theorem connStep_keys (m : GroupMap) (e : String × String) :
    (connStep m e).map Prod.fst = m.map Prod.fst := by
  simp only [connStep]
  cases hf : m.find? (fun p => p.2.nodes.any (fun gn => gn.nodeModel == e.1)) with
  | none => rfl
  | some f =>
    cases ht : m.find? (fun p => p.2.nodes.any (fun gn => gn.nodeModel == e.2)) with
    | none => rfl
    | some t =>
      show ((if (!(f.2.connectionsOut.contains t.1) &&
            !(t.2.connectionsIn.contains f.1)) = true
          then mapUpdate (mapUpdate m f.1
              (fun g => { g with connectionsOut := g.connectionsOut ++ [t.1] })) t.1
              (fun g => { g with connectionsIn := g.connectionsIn ++ [f.1] })
          else m).map Prod.fst) = m.map Prod.fst
      by_cases hc : (!(f.2.connectionsOut.contains t.1) &&
          !(t.2.connectionsIn.contains f.1)) = true
      · rw [if_pos hc, mapUpdate_keys, mapUpdate_keys]
      · rw [if_neg hc]

theorem connStep_keysNodup (m : GroupMap) (e : String × String) (hnd : keysNodup m) :
    keysNodup (connStep m e) := by
  unfold keysNodup
  rw [connStep_keys]
  exact hnd

theorem connStep_inv (m : GroupMap) (e : String × String) (hnd : keysNodup m)
    (hci : ConnInv m) : ConnInv (connStep m e) := by
  simp only [connStep]
  cases hf : m.find? (fun p => p.2.nodes.any (fun gn => gn.nodeModel == e.1)) with
  | none => exact hci
  | some f =>
    cases ht : m.find? (fun p => p.2.nodes.any (fun gn => gn.nodeModel == e.2)) with
    | none => exact hci
    | some t =>
      show ConnInv (if (!(f.2.connectionsOut.contains t.1) &&
          !(t.2.connectionsIn.contains f.1)) = true
        then mapUpdate (mapUpdate m f.1
            (fun g => { g with connectionsOut := g.connectionsOut ++ [t.1] })) t.1
            (fun g => { g with connectionsIn := g.connectionsIn ++ [f.1] })
        else m)
      by_cases hcond : (!(f.2.connectionsOut.contains t.1) &&
          !(t.2.connectionsIn.contains f.1)) = true
      · rw [if_pos hcond]
        have hfm := List.mem_of_find?_eq_some hf
        have htm := List.mem_of_find?_eq_some ht
        simp only [Bool.and_eq_true] at hcond
        obtain ⟨h1, h2⟩ := hcond
        have hout : t.1 ∉ f.2.connectionsOut := by
          intro hmem
          have hcontains : f.2.connectionsOut.contains t.1 = true := by
            rw [List.contains_eq_any_beq]
            exact List.any_eq_true.mpr ⟨t.1, hmem, by simp⟩
          rw [hcontains] at h1
          exact absurd h1 (by simp)
        have hin : f.1 ∉ t.2.connectionsIn := by
          intro hmem
          have hcontains : t.2.connectionsIn.contains f.1 = true := by
            rw [List.contains_eq_any_beq]
            exact List.any_eq_true.mpr ⟨f.1, hmem, by simp⟩
          rw [hcontains] at h2
          exact absurd h2 (by simp)
        intro p hp
        unfold mapUpdate at hp
        obtain ⟨q1, hq1, himg1⟩ := List.mem_map.mp hp
        obtain ⟨q0, hq0, himg0⟩ := List.mem_map.mp hq1
        by_cases hq0f : (q0.1 == f.1) = true
        · have hq0e : q0 = f := keysNodup_unique m hnd q0 hq0 f hfm (eq_of_beq hq0f)
          subst hq0e
          rw [if_pos hq0f] at himg0
          by_cases hq1t : (q1.1 == t.1) = true
          · rw [← himg0] at hq1t himg1
            have hft : (q0.1 == t.1) = true := by simpa using hq1t
            have hte : q0 = t := keysNodup_unique m hnd q0 hq0 t htm (eq_of_beq hft)
            rw [if_pos (by simpa using hq1t)] at himg1
            rw [← himg1]
            constructor
            · exact nodup_append_singleton (hci q0 hq0).1 hout
            · have hin2 : q0.1 ∉ q0.2.connectionsIn := by
                rw [← hte] at hin
                exact hin
              exact nodup_append_singleton (hci q0 hq0).2 hin2
          · rw [← himg0] at hq1t himg1
            rw [if_neg (by simpa using hq1t)] at himg1
            rw [← himg1]
            constructor
            · exact nodup_append_singleton (hci q0 hq0).1 hout
            · exact (hci q0 hq0).2
        · rw [if_neg hq0f] at himg0
          rw [← himg0] at himg1
          by_cases hq1t : (q0.1 == t.1) = true
          · have hq1e : q0 = t := keysNodup_unique m hnd q0 hq0 t htm (eq_of_beq hq1t)
            rw [if_pos hq1t] at himg1
            rw [← himg1]
            constructor
            · exact (hci q0 hq0).1
            · refine nodup_append_singleton (hci q0 hq0).2 ?_
              rw [hq1e]
              exact hin
          · rw [if_neg hq1t] at himg1
            rw [← himg1]
            exact hci q0 hq0
      · rw [if_neg hcond]
        exact hci

/-- C4, corrected: the connectivity resolver records every ordered group
pair at most once — no group id is duplicated in any `connectionsOut` or
`connectionsIn` list — but it does NOT exclude self-loops: the source's
`fromGroup !== toGroup` compares two freshly built `[key, value]` pair
arrays from two separate `Array.from` calls and never fails, so an edge
whose two endpoints are owned by the same group records the group in its own
connection lists. -/
theorem C4_theorem (sub : Subgraph) (m : GroupMap) (hnd : keysNodup m)
    (hinit : ∀ p ∈ m, p.2.connectionsOut = [] ∧ p.2.connectionsIn = []) :
    ∀ k g, mapGet (connectivityPhase sub m) k = some g →
      g.connectionsOut.Nodup ∧ g.connectionsIn.Nodup := by
  have hstart : ConnInv m := by
    intro p hp
    obtain ⟨h1, h2⟩ := hinit p hp
    rw [h1, h2]
    exact ⟨List.nodup_nil, List.nodup_nil⟩
  have hfold : ∀ (es : List (String × String)) (m0 : GroupMap),
      keysNodup m0 → ConnInv m0 →
      keysNodup (es.foldl connStep m0) ∧ ConnInv (es.foldl connStep m0) := by
    intro es
    induction es with
    | nil =>
      intro m0 hnd0 hc0
      exact ⟨hnd0, hc0⟩
    | cons e rest ih =>
      intro m0 hnd0 hc0
      rw [List.foldl_cons]
      exact ih (connStep m0 e) (connStep_keysNodup m0 e hnd0) (connStep_inv m0 e hnd0 hc0)
  intro k g hget
  obtain ⟨_, hci⟩ := hfold sub.edges m hnd hstart
  unfold connectivityPhase at hget
  unfold mapGet at hget
  cases hfind : (sub.edges.foldl connStep m).find? (fun p => p.1 == k) with
  | none =>
    rw [hfind] at hget
    exact Option.noConfusion hget
  | some q =>
    rw [hfind] at hget
    have hqm := List.mem_of_find?_eq_some hfind
    injection hget with hget
    rw [← hget]
    exact hci q hqm

/-- Witness for C4 on the plain graph's resolved map. -/
theorem C4_witness :
    connPlainGroup.connectionsOut.Nodup ∧ connPlainGroup.connectionsIn.Nodup :=
  C4_theorem sgPlain plainMap (by unfold keysNodup; decide) (by decide)
    "aws_instance.web" connPlainGroup rfl

/-- Counterexample to C4 as stated: the edge from the instance to its
absorbed satellite has both endpoints in the same group, yet the resolver
records a self-loop — the group's own id lands in both its `connectionsOut`
and its `connectionsIn`. -/
theorem C4_counterexample :
    (mapGet (connectivityPhase sgPlain plainMap) "aws_instance.web").map
      (fun g => (g.connectionsOut, g.connectionsIn))
      = some (["aws_instance.web"], ["aws_instance.web"]) := rfl

/-! ## Plan-based pruning -/

theorem keepGroup_iff (g : NodeGroup) :
    keepGroup g = true ↔ (g.nodes.headD emptyGroupNode).resourceChanges ≠ [] := by
  unfold keepGroup
  cases h : (g.nodes.headD emptyGroupNode).resourceChanges with
  | nil => simp [h]
  | cons a l => simp [h]

theorem mapGet_none_of_no_key (ml : GroupMap) (k : String)
    (h : ∀ p ∈ ml, (p.1 == k) = false) : mapGet ml k = none := by
  unfold mapGet
  have hfind : ml.find? (fun p => p.1 == k) = none :=
    List.find?_eq_none.mpr (fun x hx => by rw [h x hx]; simp)
  rw [hfind]
  rfl

theorem mapGet_filter_map_char (keepg : NodeGroup → Bool) (fg : NodeGroup → NodeGroup) :
    ∀ (m : GroupMap), keysNodup m → ∀ (k : String),
      mapGet ((m.filter (fun p => keepg p.2)).map (fun p => (p.1, fg p.2))) k =
        (match mapGet m k with
         | none => none
         | some g => if keepg g = true then some (fg g) else none) := by
  intro m
  induction m with
  | nil => intro _ k; rfl
  | cons p rest ih =>
    intro hnd k
    have hnd2 : keysNodup rest := by
      unfold keysNodup at hnd ⊢
      rw [List.map_cons] at hnd
      exact (List.nodup_cons.mp hnd).2
    have hrk : p.1 ∉ rest.map Prod.fst := by
      unfold keysNodup at hnd
      rw [List.map_cons] at hnd
      exact (List.nodup_cons.mp hnd).1
    by_cases hk : (p.1 == k) = true
    · have hget : mapGet (p :: rest) k = some p.2 := by
        unfold mapGet
        rw [List.find?_cons_of_pos _ (by exact hk)]
        rfl
      rw [hget]
      have hnok : ∀ q ∈ (rest.filter (fun q => keepg q.2)).map (fun q => (q.1, fg q.2)),
          (q.1 == k) = false := by
        intro x hx
        obtain ⟨q, hq, himg⟩ := List.mem_map.mp hx
        have hq2 : q ∈ rest := List.mem_of_mem_filter hq
        cases hz : (x.1 == k) with
        | false => rfl
        | true =>
          exfalso
          have hxk : x.1 = k := eq_of_beq hz
          have hqx : q.1 = x.1 := by rw [← himg]
          have hkp : k = p.1 := (eq_of_beq hk).symm
          have hmemk : q.1 ∈ rest.map Prod.fst := List.mem_map_of_mem Prod.fst hq2
          rw [hqx, hxk, hkp] at hmemk
          exact hrk hmemk
      cases hkeep : keepg p.2 with
      | true =>
        have hL : mapGet (((p :: rest).filter (fun q => keepg q.2)).map
            (fun q => (q.1, fg q.2))) k = some (fg p.2) := by
          rw [List.filter_cons]
          simp only [hkeep, if_true]
          unfold mapGet
          rw [List.map_cons, List.find?_cons_of_pos _ (by exact hk)]
          rfl
        rw [hL]
        simp [hkeep]
      | false =>
        have hL : mapGet (((p :: rest).filter (fun q => keepg q.2)).map
            (fun q => (q.1, fg q.2))) k = none := by
          rw [List.filter_cons]
          simp only [hkeep, Bool.false_eq_true, if_false]
          exact mapGet_none_of_no_key _ k hnok
        rw [hL]
        simp [hkeep]
    · have hget : mapGet (p :: rest) k = mapGet rest k := by
        unfold mapGet
        rw [List.find?_cons_of_neg _ (by exact hk)]
      rw [hget, List.filter_cons]
      cases hkeep : keepg p.2 with
      | true =>
        simp only [if_true]
        have hL : mapGet ((p :: rest.filter (fun q => keepg q.2)).map
            (fun q => (q.1, fg q.2))) k =
            mapGet ((rest.filter (fun q => keepg q.2)).map (fun q => (q.1, fg q.2))) k := by
          unfold mapGet
          rw [List.map_cons, List.find?_cons_of_neg _ (by exact hk)]
        rw [hL]
        exact ih hnd2 k
      | false =>
        simp only [Bool.false_eq_true, if_false]
        exact ih hnd2 k

/-- C8: with a plan supplied and show-inactive off, the pruning sweep removes
exactly the groups whose first (main) node has zero change records, and from
every surviving group removes exactly the member entries whose change-record
list is empty; every group whose main node has at least one change record
survives, keeping precisely its changed members. -/
theorem C8_theorem (m : GroupMap) (hnd : keysNodup m)
    (hne : ∀ p ∈ m, p.2.nodes.isEmpty = false) :
    ∃ m2, prunePhase m = .ok m2 ∧
      (∀ g : NodeGroup, keepGroup g = true ↔
        (g.nodes.headD emptyGroupNode).resourceChanges ≠ []) ∧
      (∀ g : NodeGroup, (pruneMembers g).nodes =
        g.nodes.filter (fun gn => gn.resourceChanges.length > 0)) ∧
      (∀ k g, mapGet m k = some g →
        mapGet m2 k = (if keepGroup g = true then some (pruneMembers g) else none)) ∧
      (∀ k g, mapGet m2 k = some g →
        ∃ g0, mapGet m k = some g0 ∧ keepGroup g0 = true ∧ g = pruneMembers g0) := by
  have hguard : m.any (fun p => p.2.nodes.isEmpty) = false := by
    rw [List.any_eq_false]
    intro p hp
    rw [hne p hp]
    simp
  refine ⟨(m.filter (fun p => keepGroup p.2)).map (fun p => (p.1, pruneMembers p.2)),
    ?_, keepGroup_iff, fun g => rfl, ?_, ?_⟩
  · unfold prunePhase
    rw [if_neg (by rw [hguard]; exact Bool.false_ne_true)]
  · intro k g hget
    have hchar := mapGet_filter_map_char keepGroup pruneMembers m hnd k
    rw [hget] at hchar
    exact hchar
  · intro k g hget
    have hchar := mapGet_filter_map_char keepGroup pruneMembers m hnd k
    rw [hget] at hchar
    cases hm0 : mapGet m k with
    | none =>
      rw [hm0] at hchar
      exact Option.noConfusion hchar.symm
    | some g0 =>
      rw [hm0] at hchar
      replace hchar : some g =
          (if keepGroup g0 = true then some (pruneMembers g0) else none) := hchar
      by_cases hkeep : keepGroup g0 = true
      · rw [if_pos hkeep] at hchar
        injection hchar with hh
        exact ⟨g0, rfl, hkeep, hh⟩
      · rw [if_neg hkeep] at hchar
        exact Option.noConfusion hchar

/-- Witness for C8 on the grouped plain graph under the `create` plan: the
instance group's main node has one change record, its satellite none. -/
theorem C8_witness :
    ∃ m2, prunePhase plainPlanMap = .ok m2 ∧
      (∀ g : NodeGroup, keepGroup g = true ↔
        (g.nodes.headD emptyGroupNode).resourceChanges ≠ []) ∧
      (∀ g : NodeGroup, (pruneMembers g).nodes =
        g.nodes.filter (fun gn => gn.resourceChanges.length > 0)) ∧
      (∀ k g, mapGet plainPlanMap k = some g →
        mapGet m2 k = (if keepGroup g = true then some (pruneMembers g) else none)) ∧
      (∀ k g, mapGet m2 k = some g →
        ∃ g0, mapGet plainPlanMap k = some g0 ∧ keepGroup g0 = true ∧
          g = pruneMembers g0) :=
  C8_theorem plainPlanMap (by unfold keysNodup; decide) (by decide)

end Inkdrop
